import Mathlib

/-!
# I2C24LC32: wear-leveled record storage on a 24LC32 EEPROM

A shallow embedding of `src/I2C24LC32.h` / `src/I2C24LC32.cpp` and proofs about it.

* `size_t` values are natural numbers below `2 ^ w`, where `w` is the width of
  `size_t` on the target (16 on AVR, 32 on ARM/ESP32); every `size_t` operation
  is reduced modulo `2 ^ w` explicitly.
* `uint8_t` is `Fin 256`, `uint16_t` values are naturals reduced modulo `2 ^ 16`,
  `uint32_t` values are naturals reduced modulo `2 ^ 32`.
-/

namespace I2C24LC32

/-! ## Constants of the header -/

/-- The constant `EEPROM_TOTAL` of the header: bytes in a 24LC32. -/
def EEPROM_TOTAL : Nat := 4096

/-- The constant `PAGE_SIZE` of the header. -/
def PAGE_SIZE : Nat := 32

/-- The constant `FOOTER_SIZE` of the header: 4 bytes counter + 2 bytes CRC16. -/
def FOOTER_SIZE : Nat := 6

/-! ## `size_t` arithmetic -/

/-- Addition of two `size_t` values of width `w`. -/
def szAdd (w a b : Nat) : Nat := (a + b) % 2 ^ w

/-- Subtraction of two `size_t` values of width `w` (both below `2 ^ w`). -/
def szSub (w a b : Nat) : Nat := (a + 2 ^ w - b) % 2 ^ w

/-- Multiplication of two `size_t` values of width `w`. -/
def szMul (w a b : Nat) : Nat := (a * b) % 2 ^ w

/-! ## Layout step of `begin()` (lines 28-33) -/

/-- The three layout fields `_slotPages`, `_slotSize`, `_numSlots`. -/
structure Layout where
  slotPages : Nat
  slotSize : Nat
  numSlots : Nat
deriving DecidableEq, Repr

/-- The layout fields as the constructor leaves them. -/
def Layout.init : Layout := { slotPages := 0, slotSize := 0, numSlots := 0 }

/-- The expression `(_userSize + FOOTER_SIZE + PAGE_SIZE - 1) / PAGE_SIZE` of line 28,
evaluated left to right in `size_t`. -/
def computeSlotPages (w userSize : Nat) : Nat :=
  szSub w (szAdd w (szAdd w userSize FOOTER_SIZE) PAGE_SIZE) 1 / PAGE_SIZE

/-- Lines 28-33 of `begin()`, run on an object whose layout fields are `l0`.
The result is the layout fields afterwards and whether control passed line 33
(`true`) or `begin` returned `false` at line 30 or 33 (`false`). -/
def beginLayout (w userSize : Nat) (l0 : Layout) : Layout × Bool :=
  let slotPages := computeSlotPages w userSize
  let slotSize := szMul w slotPages PAGE_SIZE
  if slotSize = 0 ∨ slotSize > EEPROM_TOTAL then
    ({ slotPages := slotPages, slotSize := slotSize, numSlots := l0.numSlots }, false)
  else
    let numSlots := EEPROM_TOTAL / slotSize
    if numSlots < 2 then
      ({ slotPages := slotPages, slotSize := slotSize, numSlots := numSlots }, false)
    else
      ({ slotPages := slotPages, slotSize := slotSize, numSlots := numSlots }, true)

/-- The layout is accepted: `begin()` does not return at line 30 or 33. -/
def layoutAccepted (w userSize : Nat) : Bool := (beginLayout w userSize Layout.init).2

/-- Ceiling division, as the specification writes `ceil(a / b)`. -/
def ceilDiv (a b : Nat) : Nat := (a + b - 1) / b

/-! ### The layout step with its divisions checked -/

/-- The `size_t` division `a / b` of C++, undefined for `b = 0` (here `none`). -/
def szDiv (a b : Nat) : Option Nat := if b = 0 then none else some (a / b)

/-- Lines 28-33 of `begin()` as `beginLayout`, with the two divisions (line 28 by
`PAGE_SIZE`, line 32 by `_slotSize`) evaluated by `szDiv`: the result is `none` when
`begin()` divides by zero. -/
def beginLayoutChecked (w userSize : Nat) (l0 : Layout) : Option (Layout × Bool) :=
  match szDiv (szSub w (szAdd w (szAdd w userSize FOOTER_SIZE) PAGE_SIZE) 1) PAGE_SIZE with
  | none => none
  | some slotPages =>
    let slotSize := szMul w slotPages PAGE_SIZE
    if slotSize = 0 ∨ slotSize > EEPROM_TOTAL then
      some ({ slotPages := slotPages, slotSize := slotSize, numSlots := l0.numSlots }, false)
    else
      match szDiv EEPROM_TOTAL slotSize with
      | none => none
      | some numSlots =>
        if numSlots < 2 then
          some ({ slotPages := slotPages, slotSize := slotSize, numSlots := numSlots }, false)
        else
          some ({ slotPages := slotPages, slotSize := slotSize, numSlots := numSlots }, true)

/-! ## Integrity checker: `crc16_ccitt` (lines 65-76) -/

/-- A `uint8_t`. -/
abbrev Byte := Fin 256

/-- The default seed of `crc16_ccitt` in the header. -/
def CRC_SEED : Nat := 0xFFFF

/-- The body of the inner loop (lines 71-72) on a `uint16_t` register:
`if (crc & 0x8000) crc = (crc << 1) ^ 0x1021; else crc <<= 1;`,
the assignment truncating to 16 bits. -/
def crcShift (crc : Nat) : Nat :=
  if crc &&& 0x8000 ≠ 0 then ((crc <<< 1) ^^^ 0x1021) % 65536 else (crc <<< 1) % 65536

/-- The body of the outer loop (lines 69-73): xor the byte into the high half of the
register, then run the inner loop eight times. -/
def crcByte (crc : Nat) (d : Byte) : Nat :=
  crcShift^[8] ((crc ^^^ (d.val <<< 8)) % 65536)

/-- The function `crc16_ccitt(data, len, seed)`: `data` is the list of the `len` bytes
read, `seed` is reduced to a `uint16_t` as the parameter type does. -/
def crc16_ccitt (data : List Byte) (seed : Nat) : Nat :=
  (data.foldl crcByte (seed % 65536)) &&& 0xFFFF

/-! ### Reference definition of CRC-16/CCITT, following the specification's words -/

/-- Reference bit-serial step: shift the 16-bit register left by one and xor in the
polynomial `0x1021` whenever the bit shifted out differs from the message bit. -/
def refBitStep (reg : Nat) (m : Bool) : Nat :=
  let out := reg.testBit 15
  let shifted := (reg * 2) % 65536
  if out != m then shifted ^^^ 0x1021 else shifted

/-- The `k` low bits of `v`, most significant first. -/
def bitsMsbFirst : Nat → Nat → List Bool
  | 0, _ => []
  | k + 1, v => v.testBit k :: bitsMsbFirst k v

/-- The message bits of a byte sequence: each byte most significant bit first. -/
def messageBits (data : List Byte) : List Bool :=
  data.flatMap (fun d => bitsMsbFirst 8 d.val)

/-- Reference CRC: the bit-serial register run over the message bits, started at the
seed, with no reflection and no final xor. -/
def refCrc16 (data : List Byte) (seed : Nat) : Nat :=
  (messageBits data).foldl refBitStep (seed % 65536)

/-- The nine ASCII bytes of the check string `123456789`. -/
def checkString : List Byte := [0x31, 0x32, 0x33, 0x34, 0x35, 0x36, 0x37, 0x38, 0x39]

/-- Flip bit `b` of byte `d`. -/
def flipBit (d : Byte) (b : Nat) : Byte :=
  ⟨(d.val ^^^ (1 <<< b)) % 256, Nat.mod_lt _ (by decide)⟩

/-- Flip bit `b` of the byte at position `i` of `data`. -/
def flipBitAt (data : List Byte) (i b : Nat) : List Byte :=
  data.modify (fun d => flipBit d b) i

/-! ### CRC as a polynomial remainder over GF(2)

A polynomial over GF(2) is encoded as the natural number whose bit `i` is the
coefficient of `x^i`: addition is `^^^`, multiplication by `x^k` is `<<< k`. -/

/-- The generator `x^16 + x^12 + x^5 + 1`. -/
def CCITT_POLY : Nat := 0x11021

/-- The multiple `(Σ_{s ∈ shifts} x^s) * (x^16 + x^12 + x^5 + 1)` of the generator. -/
def polyMultiple (shifts : List Nat) : Nat :=
  shifts.foldr (fun s acc => (CCITT_POLY <<< s) ^^^ acc) 0

/-- The polynomial of a bit sequence, first bit highest. -/
def bitsPoly : List Bool → Nat
  | [] => 0
  | b :: bs => (b.toNat <<< bs.length) ^^^ bitsPoly bs

/-- The message polynomial of a byte sequence: first byte highest, within a byte the
most significant bit highest. -/
def messagePoly : List Byte → Nat
  | [] => 0
  | d :: ds => (d.val <<< (8 * ds.length)) ^^^ messagePoly ds

/-- The polynomial `r` is the remainder of `p` modulo the generator: its degree is below
16 and `p - r` (which is `p + r` over GF(2)) is a multiple of the generator. -/
def IsCcittRemainder (p r : Nat) : Prop :=
  r < 2 ^ 16 ∧ ∃ shifts : List Nat, p = polyMultiple shifts ^^^ r

/-! ## Device, bus and object state -/

/-- The contents of the EEPROM: the byte stored at each address. -/
abbrev Device := Nat → Byte

/-- The I2C bus as `eepromReadBytes` sees it: whether the transaction reading `len`
bytes at `addr` completes. -/
abbrev ReadBus := Nat → Nat → Bool

/-- A bus on which every read completes. -/
def reliableBus : ReadBus := fun _ _ => true

/-- The erase pattern `0xFF`. -/
def ERASED : Byte := 0xFF

/-- The `len` bytes of the device starting at `addr`. -/
def deviceBytes (dev : Device) (addr len : Nat) : List Byte :=
  (List.range len).map (fun k => dev (addr + k))

/-- Modelled from the spec: the bus transfer of `eepromReadBytes` (lines 82 onwards: address
write, then `requestFrom` in chunks of at most 32 bytes; the source text ends inside the
chunk loop at line 95), as the channel `readRange` of section 6: a completed transfer
delivers the `len` bytes stored at `addr`, a failed one reports the error. -/
def readRange (bus : ReadBus) (dev : Device) (addr len : Nat) : Option (List Byte) :=
  if bus addr len then some (deviceBytes dev addr len) else none

/-- The function `eepromReadBytes(addr, buf, len)` (lines 78-95): the bounds check of
line 80 in `size_t` arithmetic, then the bus transfer. `none` is the return value
`false`, `some bytes` is `true` with `bytes` stored in `buf`. -/
def eepromReadBytes (w : Nat) (bus : ReadBus) (dev : Device) (addr len : Nat) :
    Option (List Byte) :=
  if szAdd w addr len > EEPROM_TOTAL then none
  else readRange bus dev addr len

/-- Modelled from the spec: the states of the write scheduler (section 4.5), which the
header keeps in `_writePending` and `_writePageIndex`; the functions that drive them
(`commit`, `task`) are not in the source text. -/
inductive WriteState where
  | Idle : WriteState
  | WritingData (pageIndex : Nat) : WriteState
  | WritingFooter : WriteState
deriving DecidableEq, Repr

/-- The object state: the fields of the header (lines 54-78). A buffer pointer is a flag
(`true` when non-null) and the bytes it points to. Two fields follow the specification,
the functions that maintain them not being in the source text: `activeSlotIndex`, the
slot index of the active record (section 4.5), and `state`, which stands for
`_writePending` and `_writePageIndex`. -/
structure Engine where
  userSize : Nat
  slotPages : Nat
  slotSize : Nat
  numSlots : Nat
  activeAlloc : Bool
  editAlloc : Bool
  writeAlloc : Bool
  activeRam : List Byte
  editRam : List Byte
  writeRam : List Byte
  activeCounter : Nat
  activeSlotIndex : Nat
  state : WriteState
  writeSlotIndex : Nat
  nextCounter : Nat

/-- The constructor `I2C24LC32(i2cAddress, userDataSize)` (lines 3-14). -/
def construct (userDataSize : Nat) : Engine :=
  { userSize := userDataSize, slotPages := 0, slotSize := 0, numSlots := 0,
    activeAlloc := false, editAlloc := false, writeAlloc := false,
    activeRam := [], editRam := [], writeRam := [],
    activeCounter := 0, activeSlotIndex := 0, state := WriteState.Idle,
    writeSlotIndex := 0, nextCounter := 0 }

/-- The accessor `isWritePending()` (line 62): a write is pending in every state of the
scheduler but `Idle`. -/
def isWritePending (e : Engine) : Bool := decide (e.state ≠ WriteState.Idle)

/-- The accessor `getActiveCounter()` (line 63). -/
def getActiveCounter (e : Engine) : Nat := e.activeCounter

/-- The accessor `activeBuffer()` (line 59), as the bytes pointed to. -/
def activeBuffer (e : Engine) : List Byte := e.activeRam

/-- The accessor `editBuffer()` (line 58), as the bytes pointed to. -/
def editBuffer (e : Engine) : List Byte := e.editRam

/-- The inline helper `slotBaseAddress(slotIndex)` of the header, in `size_t`. -/
def slotBaseAddress (w : Nat) (e : Engine) (slotIndex : Nat) : Nat :=
  szMul w slotIndex e.slotSize

/-- The library call `memcpy(dst, src, n)` on buffer contents. -/
def memcpy (dst src : List Byte) (n : Nat) : List Byte := src.take n ++ dst.drop n

/-! ## Slot footer encoding -/

/-- A natural number reduced to a `uint8_t`. -/
def toByte (n : Nat) : Byte := ⟨n % 256, Nat.mod_lt n (by decide)⟩

/-- Modelled from the spec: the footer bytes (section 6, persisted layout): the 32-bit
counter in 4 bytes little-endian, followed by the 16-bit CRC in 2 bytes, high byte
first. The functions writing and reading the footer are not in the source text. -/
def encodeFooter (counter crc : Nat) : List Byte :=
  [toByte counter, toByte (counter / 256), toByte (counter / 65536), toByte (counter / 16777216),
   toByte (crc / 256), toByte crc]

/-- Modelled from the spec: decoding of the six footer bytes into counter and stored
CRC, the inverse of `encodeFooter`; `readSlotFooter` is not in the source text. -/
def decodeFooter : List Byte → Option (Nat × Nat)
  | [b0, b1, b2, b3, c1, c0] =>
    some (b0.val + 256 * b1.val + 65536 * b2.val + 16777216 * b3.val, 256 * c1.val + c0.val)
  | _ => none

/-! ## Slot scanner (section 4.3) -/

/-- Modelled from the spec: `readSlotFooter(slotIndex, outCounter, outCrc)`, declared in
the header, body not in the source text. Reads the last `FOOTER_SIZE` bytes of the slot;
a failed read makes the slot invalid. -/
def readSlotFooter (w : Nat) (bus : ReadBus) (dev : Device) (e : Engine) (slotIndex : Nat) :
    Option (Nat × Nat) :=
  match eepromReadBytes w bus dev (slotBaseAddress w e slotIndex + e.slotSize - FOOTER_SIZE)
      FOOTER_SIZE with
  | some bytes => decodeFooter bytes
  | none => none

/-- Modelled from the spec: `readSlotData(slotIndex, dest)`, declared in the header, body
not in the source text. Reads the record-sized region at the slot's base. -/
def readSlotData (w : Nat) (bus : ReadBus) (dev : Device) (e : Engine) (slotIndex : Nat) :
    Option (List Byte) :=
  eepromReadBytes w bus dev (slotBaseAddress w e slotIndex) e.userSize

/-- Modelled from the spec: `validateSlotByReading(slotIndex, expectedCrc)`, declared in
the header, body not in the source text. Reads the record, recomputes the CRC with the
default seed and compares it with the stored value; a failed read does not validate. -/
def validateSlotByReading (w : Nat) (bus : ReadBus) (dev : Device) (e : Engine)
    (slotIndex expectedCrc : Nat) : Bool :=
  match readSlotData w bus dev e slotIndex with
  | some record => decide (crc16_ccitt record CRC_SEED = expectedCrc)
  | none => false

/-- Modelled from the spec: what the scanner finds in one slot (section 4.3): the
counter and the record when the footer read succeeds and the record validates against
the stored CRC, nothing otherwise. -/
def scanSlot (w : Nat) (bus : ReadBus) (dev : Device) (e : Engine) (slotIndex : Nat) :
    Option (Nat × List Byte) :=
  match readSlotFooter w bus dev e slotIndex with
  | none => none
  | some (counter, crc) =>
    match readSlotData w bus dev e slotIndex with
    | none => none
    | some record =>
      if crc16_ccitt record CRC_SEED = crc then some (counter, record) else none

/-- Modelled from the spec: one turn of the scan loop. A valid slot replaces the best
one so far only when its counter is strictly greater, so the lowest index wins a tie. -/
def scanStep (w : Nat) (bus : ReadBus) (dev : Device) (e : Engine)
    (best : Option (Nat × Nat × List Byte)) (slotIndex : Nat) : Option (Nat × Nat × List Byte) :=
  match scanSlot w bus dev e slotIndex with
  | none => best
  | some (counter, record) =>
    match best with
    | none => some (slotIndex, counter, record)
    | some (bi, bc, br) =>
      if counter > bc then some (slotIndex, counter, record) else some (bi, bc, br)

/-- Modelled from the spec: `selectActiveSlot()` of section 4.3, the loop over the slot
indices `0 .. numSlots - 1`; returns slot index, counter and record of the active slot. -/
def selectActiveSlot (w : Nat) (bus : ReadBus) (dev : Device) (e : Engine) :
    Option (Nat × Nat × List Byte) :=
  (List.range e.numSlots).foldl (scanStep w bus dev e) none

/-- Modelled from the spec: `pickActiveSlotOnInit()`, declared in the header, body not in
the source text. Loads record and counter of the selected slot; when no slot validates
the active buffer is filled with `0xFF` and the counter is 0, and the active slot index
is `numSlots - 1` so that the first commit lands on slot 0 (section 8). -/
def pickActiveSlotOnInit (w : Nat) (bus : ReadBus) (dev : Device) (e : Engine) : Engine :=
  match selectActiveSlot w bus dev e with
  | some (i, counter, record) =>
    { e with activeRam := record, activeCounter := counter, activeSlotIndex := i }
  | none =>
    { e with activeRam := List.replicate e.userSize ERASED, activeCounter := 0,
             activeSlotIndex := e.numSlots - 1 }

/-! ## `begin()` and `initFromEeprom()` -/

/-- The outcome of the three `new uint8_t[_userSize]` of lines 35-37: which of them
returned a non-null pointer. -/
structure AllocOutcome where
  active : Bool
  edit : Bool
  write : Bool

/-- All three allocations succeed. -/
def allocAll : AllocOutcome := { active := true, edit := true, write := true }

/-- The engine at line 46, where a `begin()` that passed the layout step and whose three
allocations succeeded invokes the slot scan: layout fields set (lines 28-33), the three
buffers allocated and filled with `0xFF` (lines 35-42), counter and pending flag reset
(lines 43-44). -/
def beforeScan (w : Nat) (e : Engine) : Engine :=
  let r := beginLayout w e.userSize
    { slotPages := e.slotPages, slotSize := e.slotSize, numSlots := e.numSlots }
  { e with slotPages := r.1.slotPages, slotSize := r.1.slotSize, numSlots := r.1.numSlots,
           activeAlloc := true, editAlloc := true, writeAlloc := true,
           activeRam := List.replicate e.userSize ERASED,
           editRam := List.replicate e.userSize ERASED,
           writeRam := List.replicate e.userSize ERASED,
           activeCounter := 0,
           state := WriteState.Idle }

/-- The statement `memcpy(_editRam, _activeRam, _userSize)` of lines 47 and 54. -/
def syncFromActive (e : Engine) : Engine :=
  { e with editRam := memcpy e.editRam e.activeRam e.userSize }

/-- The function `begin()` (lines 23-49): layout step (`beginLayout`), allocation,
erase-pattern fill, slot scan, copy of the active buffer into the edit buffer. -/
def begin (w : Nat) (alloc : AllocOutcome) (bus : ReadBus) (dev : Device) (e : Engine) :
    Bool × Engine :=
  let r := beginLayout w e.userSize
    { slotPages := e.slotPages, slotSize := e.slotSize, numSlots := e.numSlots }
  let e1 := { e with slotPages := r.1.slotPages, slotSize := r.1.slotSize,
                     numSlots := r.1.numSlots }
  if r.2 = false then (false, e1)
  else if !alloc.active || !alloc.edit || !alloc.write then
    (false, { e1 with activeAlloc := alloc.active, editAlloc := alloc.edit,
                      writeAlloc := alloc.write })
  else (true, syncFromActive (pickActiveSlotOnInit w bus dev (beforeScan w e)))

/-- The function `initFromEeprom()` (lines 51-56). -/
def initFromEeprom (w : Nat) (bus : ReadBus) (dev : Device) (e : Engine) : Bool × Engine :=
  let e1 := pickActiveSlotOnInit w bus dev e
  if e1.activeAlloc && e1.editAlloc then (true, syncFromActive e1)
  else (true, e1)

/-! ## Write scheduler (section 4.5) -/

/-- Modelled from the spec: the result of one page write on the channel (section 6,
`writePage`), as one call of `task()` meets it. `notReady` is the call that finds the
previous write cycle still running and does nothing but return (section 4.5). -/
inductive WriteOutcome where
  | ok : WriteOutcome
  | notReady : WriteOutcome
  | error : WriteOutcome
deriving DecidableEq, Repr

/-- The device after `data` has been stored at `addr`. -/
def storeBytes (dev : Device) (addr : Nat) (data : List Byte) : Device :=
  fun a => if addr ≤ a then (data[a - addr]?).getD (dev a) else dev a

/-- Modelled from the spec: `writePageToEeprom(absoluteAddr, pageData, len)`, declared in
the header, body not in the source text. A successful write stores the page; a failed
one reports the error and leaves the device as it was. -/
def writePageToEeprom (o : WriteOutcome) (dev : Device) (absoluteAddr : Nat)
    (pageData : List Byte) : Bool × Device :=
  match o with
  | WriteOutcome.ok => (true, storeBytes dev absoluteAddr pageData)
  | _ => (false, dev)

/-- Modelled from the spec: the number of pages holding record bytes,
`ceil(userSize / PAGE_SIZE)`. -/
def dataPages (e : Engine) : Nat := (e.userSize + PAGE_SIZE - 1) / PAGE_SIZE

/-- Modelled from the spec: page `p` of the in-flight record, with `0xFF` as the
trailing padding up to the page boundary (section 4.5, state `WritingData(p)`). -/
def dataPage (e : Engine) (p : Nat) : List Byte :=
  (List.range PAGE_SIZE).map (fun k => (e.writeRam[p * PAGE_SIZE + k]?).getD ERASED)

/-- Modelled from the spec: the last page of the slot as `writeFooterPage(slotIndex,
dataForSlot, counter, crc)` composes it: the record bytes that fall on that page,
padding, and the footer in the last `FOOTER_SIZE` bytes of the slot. -/
def footerPage (e : Engine) (record : List Byte) (counter crc : Nat) : List Byte :=
  (List.range PAGE_SIZE).map (fun k =>
    let off := (e.slotPages - 1) * PAGE_SIZE + k
    if off < e.userSize then (record[off]?).getD ERASED
    else if e.slotSize - FOOTER_SIZE ≤ off then
      ((encodeFooter counter crc)[off - (e.slotSize - FOOTER_SIZE)]?).getD ERASED
    else ERASED)

/-- Modelled from the spec: `writeFooterPage(slotIndex, dataForSlot, counter, crc)`,
declared in the header, body not in the source text: one page write of `footerPage` to
the last page of the slot. -/
def writeFooterPage (w : Nat) (o : WriteOutcome) (dev : Device) (e : Engine)
    (slotIndex : Nat) (dataForSlot : List Byte) (counter crc : Nat) : Bool × Device :=
  writePageToEeprom o dev (slotBaseAddress w e slotIndex + (e.slotPages - 1) * PAGE_SIZE)
    (footerPage e dataForSlot counter crc)

/-- Modelled from the spec: the counter of the next commit (section 4.5):
`activeCounter + 1`, wrapping at the 32-bit boundary back to 1, 0 being reserved for
"no record". -/
def nextCounterOf (activeCounter : Nat) : Nat :=
  if (activeCounter + 1) % 2 ^ 32 = 0 then 1 else (activeCounter + 1) % 2 ^ 32

/-- Modelled from the spec: `commit()` (section 4.5), declared in the header, body not in
the source text. Rejected while a write is pending; otherwise snapshots the edit buffer
into the in-flight buffer, targets slot `(activeSlotIndex + 1) mod numSlots`, computes
the next counter and enters `WritingData(0)`. -/
def commit (e : Engine) : Bool × Engine :=
  if e.state ≠ WriteState.Idle then (false, e)
  else
    (true, { e with writeRam := e.editRam,
                    writeSlotIndex := (e.activeSlotIndex + 1) % e.numSlots,
                    nextCounter := nextCounterOf e.activeCounter,
                    state := WriteState.WritingData 0 })

/-- Modelled from the spec: `task()` (section 4.5), declared in the header, body not in
the source text. One poll step on the engine and the device, `o` being what the channel
does at this call. -/
def task (w : Nat) (o : WriteOutcome) (s : Engine × Device) : Engine × Device :=
  let e := s.1
  let dev := s.2
  match e.state with
  | WriteState.Idle => (e, dev)
  | WriteState.WritingData p =>
    match o with
    | WriteOutcome.notReady => (e, dev)
    | _ =>
      let r := writePageToEeprom o dev (slotBaseAddress w e e.writeSlotIndex + p * PAGE_SIZE)
        (dataPage e p)
      if r.1 then
        if p + 1 ≥ dataPages e then ({ e with state := WriteState.WritingFooter }, r.2)
        else ({ e with state := WriteState.WritingData (p + 1) }, r.2)
      else ({ e with state := WriteState.Idle }, r.2)
  | WriteState.WritingFooter =>
    match o with
    | WriteOutcome.notReady => (e, dev)
    | _ =>
      let r := writeFooterPage w o dev e e.writeSlotIndex e.writeRam e.nextCounter
        (crc16_ccitt e.writeRam CRC_SEED)
      if r.1 then
        ({ e with activeRam := e.writeRam, activeCounter := e.nextCounter,
                  activeSlotIndex := e.writeSlotIndex, state := WriteState.Idle }, r.2)
      else ({ e with state := WriteState.Idle }, r.2)

/-- Repeated calls of `task()`, one per channel outcome. -/
def runTasks (w : Nat) (os : List WriteOutcome) (s : Engine × Device) : Engine × Device :=
  os.foldl (fun s o => task w o s) s

/-- The application stores `record` in the edit buffer. -/
def setEdit (e : Engine) (record : List Byte) : Engine := { e with editRam := record }

/-- One full commit cycle: the record is placed in the edit buffer, `commit()` is called
and `task()` is driven by the outcomes `os`. -/
def commitCycle (w : Nat) (os : List WriteOutcome) (record : List Byte)
    (s : Engine × Device) : Engine × Device :=
  runTasks w os ((commit (setEdit s.1 record)).2, s.2)

/-! ## Predicates used in the statements -/

/-- Slot `j` is valid with counter `c` and record `r`: its footer read succeeds and gives
counter `c`, its record read succeeds and gives `r`, and the stored CRC equals the CRC
recomputed over `r`. -/
def SlotValid (w : Nat) (bus : ReadBus) (dev : Device) (e : Engine) (j c : Nat)
    (r : List Byte) : Prop :=
  ∃ crc, readSlotFooter w bus dev e j = some (c, crc) ∧
    readSlotData w bus dev e j = some r ∧ crc16_ccitt r CRC_SEED = crc

/-- The layout fields of an initialised engine describe slots that hold record and
footer and lie inside the device, at least two of them (what an accepted layout gives
when line 28 does not wrap). -/
def WellFormed (e : Engine) : Prop :=
  e.slotSize = e.slotPages * PAGE_SIZE ∧ e.userSize + FOOTER_SIZE ≤ e.slotSize ∧
    e.numSlots * e.slotSize ≤ EEPROM_TOTAL ∧ 2 ≤ e.numSlots

/-- The engine with its write state replaced. -/
def withState (e : Engine) (st : WriteState) : Engine := { e with state := st }

/-- The engine after the footer write succeeded: in-flight promoted to active. -/
def promoted (e : Engine) : Engine :=
  { e with activeRam := e.writeRam, activeCounter := e.nextCounter,
           activeSlotIndex := e.writeSlotIndex, state := WriteState.Idle }

/-- The device after the first `k` data pages of the in-flight record were stored in the
target slot. -/
def dataWritten (w : Nat) (e : Engine) (dev : Device) : Nat → Device
  | 0 => dev
  | k + 1 => storeBytes (dataWritten w e dev k)
      (slotBaseAddress w e e.writeSlotIndex + k * PAGE_SIZE) (dataPage e k)

/-- The device after all data pages and the footer page were stored. -/
def slotWritten (w : Nat) (e : Engine) (dev : Device) : Device :=
  storeBytes (dataWritten w e dev (max 1 (dataPages e)))
    (slotBaseAddress w e e.writeSlotIndex + (e.slotPages - 1) * PAGE_SIZE)
    (footerPage e e.writeRam e.nextCounter (crc16_ccitt e.writeRam CRC_SEED))

/-- The number of successful page writes that complete a commit: the data pages (at
least one, `commit()` entering `WritingData(0)`), then the footer page. -/
def writesNeeded (e : Engine) : Nat := max 1 (dataPages e) + 1

/-- The engine right after an accepted `commit()` of `record`, write state apart. -/
def armed (e : Engine) (record : List Byte) : Engine :=
  { setEdit e record with
      writeRam := record,
      writeSlotIndex := (e.activeSlotIndex + 1) % e.numSlots,
      nextCounter := nextCounterOf e.activeCounter }

/-- A sequence of commit cycles, each given by the channel outcomes that its `task()`
calls meet and the record committed. -/
def commitMany (w : Nat) (cycles : List (List WriteOutcome × List Byte))
    (s : Engine × Device) : Engine × Device :=
  cycles.foldl (fun s c => commitCycle w c.1 c.2 s) s

/-- The device with bit `b` of the byte at `addr` flipped. -/
def flipDeviceBit (dev : Device) (addr b : Nat) : Device :=
  fun a => if a = addr then flipBit (dev a) b else dev a

/-- What the scan loop has established after the slots below `n`: `best` is a valid slot
whose counter no valid slot below `n` exceeds, and no valid slot of equal counter has a
lower index; or no slot below `n` is valid. -/
def ScanInv (w : Nat) (bus : ReadBus) (dev : Device) (e : Engine) (n : Nat)
    (best : Option (Nat × Nat × List Byte)) : Prop :=
  match best with
  | none => ∀ j, j < n → scanSlot w bus dev e j = none
  | some (i, c, r) =>
    i < n ∧ scanSlot w bus dev e i = some (c, r) ∧
      ∀ j, j < n → ∀ c2 r2, scanSlot w bus dev e j = some (c2, r2) → c2 < c ∨ (c2 = c ∧ i ≤ j)

/-- While a write is pending, active buffer and counter are those of before the commit. -/
def ActiveKept (a : List Byte) (c : Nat) (s : Engine × Device) : Prop :=
  s.1.state ≠ WriteState.Idle → s.1.activeRam = a ∧ s.1.activeCounter = c

/-- An initialised engine: the three buffers are allocated and hold `userSize` bytes
each, as after a successful `begin()`. -/
def Initialised (e : Engine) : Prop :=
  e.activeAlloc = true ∧ e.editAlloc = true ∧ e.writeAlloc = true ∧
    e.activeRam.length = e.userSize ∧ e.editRam.length = e.userSize ∧
    e.writeRam.length = e.userSize

/-! ## Concrete devices and engines used as examples -/

/-- A device in the erased state. -/
def blankDevice : Device := fun _ => ERASED

/-- An engine for one-byte records (`slotSize = 32`, `numSlots = 128`) started on `dev`,
with a 16-bit `size_t`, successful allocations and the bus `bus`. -/
def startOn (bus : ReadBus) (dev : Device) : Bool × Engine :=
  begin 16 allocAll bus dev (construct 1)

/-- The engine started on a blank device. -/
def blankEngine : Engine := (startOn reliableBus blankDevice).2

/-- The engine and device after starting on a blank device, committing the record
`[0x07]` and calling `task()` three times, the second call finding the device busy. -/
def blankAfterCommit : Engine × Device :=
  commitCycle 16 [WriteOutcome.ok, WriteOutcome.notReady, WriteOutcome.ok] [7]
    (blankEngine, blankDevice)

/-- One commit cycle of the record `[0x07]` whose two page writes succeed. -/
def plainCycle : List WriteOutcome × List Byte := ([WriteOutcome.ok, WriteOutcome.ok], [7])

/-- Two commit cycles, the second meeting a busy device once. -/
def twoCycles : List (List WriteOutcome × List Byte) :=
  [plainCycle, ([WriteOutcome.ok, WriteOutcome.notReady, WriteOutcome.ok], [8])]

/-- A third commit cycle, of the record `[0x09]`, whose two page writes succeed. -/
def thirdCycle : List WriteOutcome × List Byte := ([WriteOutcome.ok, WriteOutcome.ok], [9])

/-- The device after one commit of `[0x07]` on a blank device: slot 0 is valid. -/
def oneRecordDevice : Device := blankAfterCommit.2

/-! ## Layout: supporting lemmas -/

theorem two_pow_ge {w : Nat} (hw : 13 ≤ w) : 8192 ≤ 2 ^ w := by
  calc 8192 = 2 ^ 13 := by norm_num
    _ ≤ 2 ^ w := Nat.pow_le_pow_right (by norm_num) hw

/-- Line 28 in closed form: the three `size_t` operations amount to one reduction
modulo `2 ^ w`. -/
theorem computeSlotPages_eq (w userSize : Nat) :
    computeSlotPages w userSize = (userSize + 37) % 2 ^ w / 32 := by
  have hM : 1 ≤ 2 ^ w := Nat.one_le_two_pow
  unfold computeSlotPages szSub szAdd FOOTER_SIZE PAGE_SIZE
  generalize 2 ^ w = M at hM
  have e1 : ((userSize + 6) % M + 32) % M = (userSize + 38) % M := by
    rw [Nat.add_mod, Nat.mod_mod, ← Nat.add_mod]
  rw [e1]
  have e2 : (userSize + 38) % M + M - 1 = (userSize + 38) % M + (M - 1) := by omega
  rw [e2, Nat.add_mod, Nat.mod_mod, ← Nat.add_mod]
  have e3 : userSize + 38 + (M - 1) = userSize + 37 + M := by omega
  rw [e3, Nat.add_mod_right]

/-- Without wrap-around line 28 computes the ceiling. -/
theorem computeSlotPages_noWrap (w userSize : Nat) (h : userSize + 37 < 2 ^ w) :
    computeSlotPages w userSize = ceilDiv (userSize + 6) 32 := by
  rw [computeSlotPages_eq, Nat.mod_eq_of_lt h]
  rfl

/-- The multiplication of line 29 never wraps: `_slotPages` is a quotient by 32. -/
theorem slotSize_eq (w userSize : Nat) :
    szMul w (computeSlotPages w userSize) PAGE_SIZE = computeSlotPages w userSize * 32 := by
  have hM : 0 < 2 ^ w := Nat.two_pow_pos w
  rw [computeSlotPages_eq]
  unfold szMul PAGE_SIZE
  apply Nat.mod_eq_of_lt
  have h1 : (userSize + 37) % 2 ^ w < 2 ^ w := Nat.mod_lt _ hM
  have h2 := Nat.div_mul_le_self ((userSize + 37) % 2 ^ w) 32
  omega

/-- The layout fields after lines 28-33, in closed form, when line 28 does not wrap. -/
theorem beginLayout_noWrap (w userSize : Nat) (h : userSize + 37 < 2 ^ w) :
    (beginLayout w userSize Layout.init).1 =
      { slotPages := ceilDiv (userSize + 6) 32,
        slotSize := ceilDiv (userSize + 6) 32 * 32,
        numSlots := 4096 / (ceilDiv (userSize + 6) 32 * 32) } := by
  have hp := computeSlotPages_noWrap w userSize h
  have hs := slotSize_eq w userSize
  rw [hp] at hs
  unfold beginLayout
  simp only [hp, hs, EEPROM_TOTAL, Layout.init]
  have hpos : 1 ≤ ceilDiv (userSize + 6) 32 := by
    unfold ceilDiv
    omega
  by_cases hbig : ceilDiv (userSize + 6) 32 * 32 > 4096
  · have hz : 4096 / (ceilDiv (userSize + 6) 32 * 32) = 0 := Nat.div_eq_of_lt hbig
    simp [hbig, hz]
  · have h0 : ¬ (ceilDiv (userSize + 6) 32 * 32 = 0) := by omega
    simp only [h0, hbig, or_self, if_false]
    split <;> rfl

/-- When line 28 does not wrap, the layout is accepted exactly for `userSize + 6 ≤ 2048`. -/
theorem layoutAccepted_noWrap (w userSize : Nat) (h : userSize + 37 < 2 ^ w) :
    layoutAccepted w userSize = true ↔ userSize + 6 ≤ 2048 := by
  have hp := computeSlotPages_noWrap w userSize h
  have hs := slotSize_eq w userSize
  rw [hp] at hs
  unfold layoutAccepted beginLayout
  simp only [hp, hs, EEPROM_TOTAL, Layout.init]
  have hc : ceilDiv (userSize + 6) 32 = (userSize + 37) / 32 := rfl
  generalize ceilDiv (userSize + 6) 32 = c at hc
  by_cases hbig : c * 32 = 0 ∨ c * 32 > 4096
  · simp only [hbig, if_true]
    constructor
    · intro hf
      cases hf
    · intro hle
      omega
  · simp only [hbig, if_false]
    have hpos : 0 < c * 32 := by omega
    by_cases h2 : 4096 / (c * 32) < 2
    · simp only [h2, if_true]
      constructor
      · intro hf
        cases hf
      · intro hle
        have : 2 * (c * 32) ≤ 4096 := by omega
        have := (Nat.le_div_iff_mul_le hpos).mpr this
        omega
    · simp only [h2, if_false, true_iff]
      have h3 : 2 ≤ 4096 / (c * 32) := by omega
      have := (Nat.le_div_iff_mul_le hpos).mp h3
      omega

/-- An accepted layout has a slot size that is a non-zero multiple of 32, below the
device size, and at least two slots; this holds with or without wrap-around. -/
theorem accepted_shape (w userSize : Nat) (h : layoutAccepted w userSize = true) :
    (beginLayout w userSize Layout.init).1.slotSize =
        (beginLayout w userSize Layout.init).1.slotPages * 32 ∧
      0 < (beginLayout w userSize Layout.init).1.slotPages ∧
      (beginLayout w userSize Layout.init).1.slotSize ≤ 4096 ∧
      (beginLayout w userSize Layout.init).1.numSlots =
        4096 / (beginLayout w userSize Layout.init).1.slotSize ∧
      2 ≤ (beginLayout w userSize Layout.init).1.numSlots := by
  have hs := slotSize_eq w userSize
  unfold layoutAccepted at h
  unfold beginLayout at h ⊢
  simp only [hs, EEPROM_TOTAL] at h ⊢
  generalize computeSlotPages w userSize = c at h ⊢
  split_ifs at h ⊢ with h1 h2
  refine ⟨rfl, ?_, ?_, rfl, ?_⟩
  · show 0 < c
    omega
  · show c * 32 ≤ 4096
    omega
  · show 2 ≤ 4096 / (c * 32)
    omega

/-- When line 28 does not wrap, the slot of an accepted layout holds the record and
its footer. -/
theorem accepted_fits_noWrap (w userSize : Nat) (h : userSize + 37 < 2 ^ w)
    (_hacc : layoutAccepted w userSize = true) :
    userSize + 6 ≤ (beginLayout w userSize Layout.init).1.slotSize := by
  rw [beginLayout_noWrap w userSize h]
  show userSize + 6 ≤ ceilDiv (userSize + 6) 32 * 32
  unfold ceilDiv
  omega

/-! ## Layout: claims C1-C3 -/

/-- C1 (as amended): for every record size `userSize` for which the `size_t` sum of
line 28 does not wrap (`userSize + 37 < 2 ^ w`), `begin()` on a fresh object leaves
`_slotPages = ceil((userSize + 6) / 32)`, `_slotSize = _slotPages * 32` and
`_numSlots = floor(4096 / _slotSize)`. -/
theorem c1_layout_derivation (w userSize : Nat) (h : userSize + 37 < 2 ^ w) :
    (beginLayout w userSize Layout.init).1.slotPages = ceilDiv (userSize + FOOTER_SIZE) PAGE_SIZE ∧
    (beginLayout w userSize Layout.init).1.slotSize =
      (beginLayout w userSize Layout.init).1.slotPages * PAGE_SIZE ∧
    (beginLayout w userSize Layout.init).1.numSlots =
      EEPROM_TOTAL / (beginLayout w userSize Layout.init).1.slotSize := by
  rw [beginLayout_noWrap w userSize h]
  exact ⟨rfl, rfl, rfl⟩

/-- C1, witness: with a 16-bit `size_t`, `userSize = 58` gives `slotPages = 2`,
`slotSize = 64`, `numSlots = 64`. -/
theorem c1_layout_derivation_witness :
    58 + 37 < 2 ^ 16 ∧
    (beginLayout 16 58 Layout.init).1.slotPages = 2 ∧
    (beginLayout 16 58 Layout.init).1.slotSize = 2 * 32 ∧
    (beginLayout 16 58 Layout.init).1.numSlots = 4096 / 64 :=
  ⟨by decide, c1_layout_derivation 16 58 (by decide)⟩

/-- C1, counterexample: with a 16-bit `size_t` and `userSize = 65535` the sum of line 28
wraps to 36, so `begin()` computes `_slotPages = 1`, `_slotSize = 32`, `_numSlots = 128`,
whereas `ceil((65535 + 6) / 32) = 2049`. -/
theorem c1_layout_derivation_counterexample :
    (beginLayout 16 65535 Layout.init).1 = { slotPages := 1, slotSize := 32, numSlots := 128 } ∧
    ceilDiv (65535 + FOOTER_SIZE) PAGE_SIZE = 2049 ∧
    ¬ ((beginLayout 16 65535 Layout.init).1.slotPages = ceilDiv (65535 + FOOTER_SIZE) PAGE_SIZE) := by
  decide

/-- C2 (code at the failing input): with a 16-bit `size_t`, `userSize = 65535` passes the
layout step of `begin()` (as does `userSize = 4294967295` with a 32-bit `size_t`),
although the slot the record needs, `ceil((userSize + 6) / 32) * 32` bytes, exceeds
the 4096-byte device. -/
theorem c2_layout_rejection_fails :
    layoutAccepted 16 65535 = true ∧
    EEPROM_TOTAL < ceilDiv (65535 + FOOTER_SIZE) PAGE_SIZE * PAGE_SIZE ∧
    layoutAccepted 32 4294967295 = true ∧
    EEPROM_TOTAL < ceilDiv (4294967295 + FOOTER_SIZE) PAGE_SIZE * PAGE_SIZE := by
  decide

/-- C3 (code at the failing input): with a 16-bit `size_t`, `userSize = 65535` is accepted
by the layout step of `begin()` with `_slotSize = 32`, which is smaller than
`userSize + 6`. -/
theorem c3_slot_size_fails :
    layoutAccepted 16 65535 = true ∧
    (beginLayout 16 65535 Layout.init).1.slotSize = 32 ∧
    ¬ (65535 + FOOTER_SIZE ≤ (beginLayout 16 65535 Layout.init).1.slotSize) := by
  decide

/-! ## Integrity checker: lemmas -/

theorem and_top_ne_zero_iff (x : Nat) : (x &&& 0x8000 ≠ 0) ↔ x.testBit 15 = true := by
  have h : (0x8000 : Nat) = 2 ^ 15 := by norm_num
  rw [h]
  constructor
  · intro hne
    by_contra hb
    apply hne
    apply Nat.eq_of_testBit_eq
    intro i
    simp only [Nat.testBit_and, Nat.testBit_two_pow, Nat.zero_testBit]
    by_cases hi : 15 = i
    · subst hi
      simp at hb
      simp [hb]
    · simp [hi]
  · intro hb hz
    have h0 : (x &&& 2 ^ 15).testBit 15 = false := by rw [hz]; exact Nat.zero_testBit 15
    rw [Nat.testBit_and, hb, Nat.testBit_two_pow_self] at h0
    cases h0

/-- The inner-loop body, bit by bit. -/
theorem crcShift_testBit (c i : Nat) :
    (crcShift c).testBit i =
      (decide (i < 16) && xor (decide (1 ≤ i) && c.testBit (i - 1))
        (c.testBit 15 && (0x1021 : Nat).testBit i)) := by
  have h16 : (65536 : Nat) = 2 ^ 16 := by norm_num
  unfold crcShift
  by_cases hb : c.testBit 15 = true
  · have hc : c &&& 0x8000 ≠ 0 := (and_top_ne_zero_iff c).mpr hb
    rw [if_pos hc, h16, Nat.testBit_mod_two_pow, Nat.testBit_xor, Nat.testBit_shiftLeft, hb]
    simp
  · have hc : ¬ (c &&& 0x8000 ≠ 0) := fun h => hb ((and_top_ne_zero_iff c).mp h)
    rw [if_neg hc, h16, Nat.testBit_mod_two_pow, Nat.testBit_shiftLeft]
    simp at hb
    simp [hb]

theorem crcShift_lt (c : Nat) : crcShift c < 65536 := by
  unfold crcShift
  split <;> exact Nat.mod_lt _ (by decide)

/-- The reference bit-serial step, bit by bit. -/
theorem refBitStep_testBit (c : Nat) (m : Bool) (i : Nat) :
    (refBitStep c m).testBit i =
      (decide (i < 16) && xor (decide (1 ≤ i) && c.testBit (i - 1))
        ((c.testBit 15 != m) && (0x1021 : Nat).testBit i)) := by
  have h16 : (65536 : Nat) = 2 ^ 16 := by norm_num
  have hpoly : ∀ j, 16 ≤ j → (0x1021 : Nat).testBit j = false := by
    intro j hj
    apply Nat.testBit_lt_two_pow
    calc (0x1021 : Nat) < 2 ^ 16 := by norm_num
      _ ≤ 2 ^ j := Nat.pow_le_pow_right (by norm_num) hj
  have hsh : ∀ j, (c * 2 % 2 ^ 16).testBit j =
      (decide (j < 16) && (decide (1 ≤ j) && c.testBit (j - 1))) := by
    intro j
    have : c * 2 = c <<< 1 := by simp [Nat.shiftLeft_eq]
    rw [this, Nat.testBit_mod_two_pow, Nat.testBit_shiftLeft]
  unfold refBitStep
  simp only [h16]
  by_cases hb : (c.testBit 15 != m) = true
  · rw [if_pos hb, Nat.testBit_xor, hsh, hb]
    by_cases hi : i < 16
    · simp [hi]
    · simp [hi, hpoly i (by omega)]
  · rw [if_neg hb, hsh]
    simp only [Bool.not_eq_true] at hb
    simp [hb]

/-- Feeding a message bit into the top of the register and running the inner-loop body is
the reference bit-serial step, with `rest` the message bits not yet consumed (they sit
below bit 15 and move up by one place). -/
theorem crcShift_feed (c v k : Nat) (hk : k < 16) :
    crcShift (c ^^^ (v <<< (15 - k))) =
      refBitStep c (v.testBit k) ^^^ ((v % 2 ^ k) <<< (16 - k)) := by
  apply Nat.eq_of_testBit_eq
  intro i
  simp only [crcShift_testBit, Nat.testBit_xor, refBitStep_testBit, Nat.testBit_shiftLeft,
    Nat.testBit_mod_two_pow]
  have e15 : 15 - (15 - k) = k := by omega
  have d15 : decide (15 ≥ 15 - k) = true := by simp
  rw [e15, d15]
  by_cases hi : i < 16
  · by_cases hi0 : 1 ≤ i
    · by_cases hik : i ≥ 16 - k
      · have a1 : i - 1 ≥ 15 - k := by omega
        have a2 : i - 1 - (15 - k) = i - (16 - k) := by omega
        have a3 : i - (16 - k) < k := by omega
        simp only [hi, hi0, hik, a1, a2, a3, decide_True, Bool.true_and]
        cases c.testBit (i - 1) <;> cases c.testBit 15 <;> cases v.testBit k <;>
          cases (0x1021 : Nat).testBit i <;> cases v.testBit (i - (16 - k)) <;> rfl
      · have a1 : ¬ (i - 1 ≥ 15 - k) := by omega
        simp only [hi, hi0, hik, a1, decide_True, decide_False, Bool.true_and, Bool.false_and,
          Bool.xor_false]
    · have hik : ¬ (i ≥ 16 - k) := by omega
      simp only [hi, hi0, hik, decide_True, decide_False, Bool.true_and, Bool.false_and,
        Bool.xor_false]
  · have a3 : ¬ (i - (16 - k) < k) := by omega
    simp [hi, a3]

/-- Running the inner loop `k` times on a register with `k` message bits xor-ed into
its top is the reference bit-serial register run over those bits. -/
theorem crcShift_iterate (k : Nat) : ∀ (c v : Nat), k ≤ 16 → v < 2 ^ k →
    crcShift^[k] (c ^^^ (v <<< (16 - k))) = (bitsMsbFirst k v).foldl refBitStep c := by
  induction k with
  | zero =>
    intro c v _ hv
    have : v = 0 := by omega
    subst this
    simp [bitsMsbFirst]
  | succ k ih =>
    intro c v hk hv
    have e : 16 - (k + 1) = 15 - k := by omega
    rw [Function.iterate_succ_apply, e, crcShift_feed c v k (by omega)]
    rw [ih (refBitStep c (v.testBit k)) (v % 2 ^ k) (by omega) (Nat.mod_lt _ (Nat.two_pow_pos k))]
    show _ = List.foldl refBitStep (refBitStep c (v.testBit k)) (bitsMsbFirst k v)
    congr 1
    clear ih e hk hv
    have key : ∀ j, j ≤ k → bitsMsbFirst j (v % 2 ^ k) = bitsMsbFirst j v := by
      intro j
      induction j with
      | zero => intro _; rfl
      | succ j ihj =>
        intro hj
        show (v % 2 ^ k).testBit j :: bitsMsbFirst j (v % 2 ^ k) = v.testBit j :: bitsMsbFirst j v
        rw [ihj (by omega), Nat.testBit_mod_two_pow]
        have : j < k := by omega
        simp [this]
    exact key k (le_refl k)

theorem crcShift_iterate_lt (k c : Nat) (hc : c < 65536) : crcShift^[k] c < 65536 := by
  induction k generalizing c with
  | zero => exact hc
  | succ k ih =>
    rw [Function.iterate_succ_apply]
    exact ih (crcShift c) (crcShift_lt c)

theorem crcByte_lt (c : Nat) (d : Byte) : crcByte c d < 65536 :=
  crcShift_iterate_lt 8 _ (Nat.mod_lt _ (by decide))

theorem foldl_crcByte_lt (data : List Byte) (c : Nat) (hc : c < 65536) :
    data.foldl crcByte c < 65536 := by
  induction data generalizing c with
  | nil => exact hc
  | cons d ds ih => exact ih (crcByte c d) (crcByte_lt c d)

/-- The final `crc & 0xFFFF` of line 75 does not change the register. -/
theorem crc16_ccitt_eq_foldl (data : List Byte) (seed : Nat) :
    crc16_ccitt data seed = data.foldl crcByte (seed % 65536) := by
  unfold crc16_ccitt
  have h := foldl_crcByte_lt data (seed % 65536) (Nat.mod_lt _ (by decide))
  have e : (0xFFFF : Nat) = 2 ^ 16 - 1 := by norm_num
  rw [e, Nat.and_pow_two_sub_one_eq_mod]
  exact Nat.mod_eq_of_lt (by simp only [Nat.reducePow]; exact h)

theorem crc16_ccitt_lt (data : List Byte) (seed : Nat) : crc16_ccitt data seed < 65536 := by
  rw [crc16_ccitt_eq_foldl]
  exact foldl_crcByte_lt data _ (Nat.mod_lt _ (by decide))

/-- One pass of the outer loop is the reference register run over the eight bits of
the byte, most significant first. -/
theorem crcByte_eq_ref (c : Nat) (d : Byte) (hc : c < 65536) :
    crcByte c d = (bitsMsbFirst 8 d.val).foldl refBitStep c := by
  unfold crcByte
  have hd : d.val <<< 8 < 2 ^ 16 := by
    rw [Nat.shiftLeft_eq]
    have := d.isLt
    omega
  have hx : c ^^^ (d.val <<< 8) < 2 ^ 16 := Nat.xor_lt_two_pow (by simpa using hc) hd
  rw [Nat.mod_eq_of_lt (by simpa using hx)]
  exact crcShift_iterate 8 c d.val (by decide) d.isLt

theorem foldl_crcByte_eq_ref (data : List Byte) (c : Nat) (hc : c < 65536) :
    data.foldl crcByte c = (messageBits data).foldl refBitStep c := by
  induction data generalizing c with
  | nil => rfl
  | cons d ds ih =>
    show List.foldl crcByte (crcByte c d) ds = _
    rw [ih (crcByte c d) (crcByte_lt c d), crcByte_eq_ref c d hc]
    unfold messageBits
    rw [List.flatMap_cons, List.foldl_append]

/-! ### The register update is injective -/

/-- Bit 0 of the polynomial `0x1021` is set: the update can be undone. -/
theorem crcShift_injective (a b : Nat) (ha : a < 65536) (hb : b < 65536)
    (h : crcShift a = crcShift b) : a = b := by
  have hbit : ∀ i, (crcShift a).testBit i = (crcShift b).testBit i := fun i => by rw [h]
  have htop : a.testBit 15 = b.testBit 15 := by
    have h0 := hbit 0
    rw [crcShift_testBit, crcShift_testBit] at h0
    have hp : (0x1021 : Nat).testBit 0 = true := by decide
    simpa [hp] using h0
  apply Nat.eq_of_testBit_eq
  intro i
  by_cases hi : i < 15
  · have h1 := hbit (i + 1)
    rw [crcShift_testBit, crcShift_testBit, htop] at h1
    have e1 : decide (i + 1 < 16) = true := by simp; omega
    have e2 : decide (1 ≤ i + 1) = true := by simp
    rw [e1, e2, Nat.add_sub_cancel] at h1
    simp only [Bool.true_and] at h1
    cases hA : a.testBit i <;> cases hB : b.testBit i <;> rw [hA, hB] at h1 <;>
      first
      | rfl
      | (exfalso
         cases hC : (b.testBit 15 && (0x1021 : Nat).testBit (i + 1)) <;> rw [hC] at h1 <;>
           cases h1)
  · by_cases hi15 : i = 15
    · rw [hi15]; exact htop
    · have hlt : ∀ x, x < 65536 → x.testBit i = false := by
        intro x hx
        apply Nat.testBit_lt_two_pow
        calc x < 2 ^ 16 := by simpa using hx
          _ ≤ 2 ^ i := Nat.pow_le_pow_right (by norm_num) (by omega)
      rw [hlt a ha, hlt b hb]

theorem crcShift_iterate_injective (k a b : Nat) (ha : a < 65536) (hb : b < 65536)
    (h : crcShift^[k] a = crcShift^[k] b) : a = b := by
  induction k generalizing a b with
  | zero => exact h
  | succ k ih =>
    rw [Function.iterate_succ_apply, Function.iterate_succ_apply] at h
    exact crcShift_injective a b ha hb (ih _ _ (crcShift_lt a) (crcShift_lt b) h)

theorem xor_byte_lt (c : Nat) (d : Byte) (hc : c < 65536) : c ^^^ (d.val <<< 8) < 65536 := by
  have hd : d.val <<< 8 < 2 ^ 16 := by
    rw [Nat.shiftLeft_eq]
    have := d.isLt
    omega
  have hx : c ^^^ (d.val <<< 8) < 2 ^ 16 := Nat.xor_lt_two_pow (by simpa using hc) hd
  simpa using hx

/-- Two different registers stay different after absorbing the same byte. -/
theorem crcByte_injective_left (c c' : Nat) (d : Byte) (hc : c < 65536) (hc' : c' < 65536)
    (h : crcByte c d = crcByte c' d) : c = c' := by
  unfold crcByte at h
  have h1 := xor_byte_lt c d hc
  have h2 := xor_byte_lt c' d hc'
  rw [Nat.mod_eq_of_lt h1, Nat.mod_eq_of_lt h2] at h
  have := crcShift_iterate_injective 8 _ _ h1 h2 h
  exact Nat.xor_left_injective this

/-- The same register absorbing two different bytes gives different registers. -/
theorem crcByte_injective_right (c : Nat) (d d' : Byte) (hc : c < 65536)
    (h : crcByte c d = crcByte c d') : d = d' := by
  unfold crcByte at h
  have h1 := xor_byte_lt c d hc
  have h2 := xor_byte_lt c d' hc
  rw [Nat.mod_eq_of_lt h1, Nat.mod_eq_of_lt h2] at h
  have h3 := crcShift_iterate_injective 8 _ _ h1 h2 h
  have h4 : d.val <<< 8 = d'.val <<< 8 := Nat.xor_right_injective h3
  rw [Nat.shiftLeft_eq, Nat.shiftLeft_eq] at h4
  apply Fin.ext
  omega

theorem foldl_crcByte_injective (data : List Byte) (c c' : Nat) (hc : c < 65536)
    (hc' : c' < 65536) (h : data.foldl crcByte c = data.foldl crcByte c') : c = c' := by
  induction data generalizing c c' with
  | nil => exact h
  | cons d ds ih =>
    exact crcByte_injective_left c c' d hc hc' (ih _ _ (crcByte_lt c d) (crcByte_lt c' d) h)

theorem flipBit_ne (d : Byte) (b : Nat) (hb : b < 8) : flipBit d b ≠ d := by
  intro h
  have hv := congrArg Fin.val h
  unfold flipBit at hv
  simp only at hv
  have h2 : (1 : Nat) <<< b < 2 ^ 8 := by
    rw [Nat.one_shiftLeft]
    exact Nat.pow_lt_pow_right (by norm_num) hb
  have h3 : d.val ^^^ (1 <<< b) < 2 ^ 8 := Nat.xor_lt_two_pow d.isLt h2
  rw [Nat.mod_eq_of_lt (by simpa using h3)] at hv
  have h4 : d.val ^^^ (1 <<< b) = d.val ^^^ 0 := by rw [Nat.xor_zero]; exact hv
  have h5 : (1 : Nat) <<< b = 0 := Nat.xor_right_injective h4
  rw [Nat.one_shiftLeft] at h5
  have := Nat.two_pow_pos b
  omega

/-- A single-bit flip anywhere in the data changes the register, whatever it started at. -/
theorem foldl_crcByte_flip (data : List Byte) (i b c : Nat) (hc : c < 65536)
    (hi : i < data.length) (hb : b < 8) :
    (flipBitAt data i b).foldl crcByte c ≠ data.foldl crcByte c := by
  induction data generalizing i c with
  | nil => simp at hi
  | cons d ds ih =>
    cases i with
    | zero =>
      show List.foldl crcByte (crcByte c (flipBit d b)) ds ≠ List.foldl crcByte (crcByte c d) ds
      intro h
      have h1 := foldl_crcByte_injective ds _ _ (crcByte_lt _ _) (crcByte_lt _ _) h
      exact flipBit_ne d b hb (crcByte_injective_right c _ _ hc h1)
    | succ i =>
      show List.foldl crcByte (crcByte c d) (flipBitAt ds i b) ≠ List.foldl crcByte (crcByte c d) ds
      exact ih i (crcByte c d) (crcByte_lt c d) (by simpa using hi)

theorem crc16_ccitt_flip (data : List Byte) (seed i b : Nat) (hi : i < data.length)
    (hb : b < 8) : crc16_ccitt (flipBitAt data i b) seed ≠ crc16_ccitt data seed := by
  rw [crc16_ccitt_eq_foldl, crc16_ccitt_eq_foldl]
  exact foldl_crcByte_flip data i b _ (Nat.mod_lt _ (by decide)) hi hb

/-! ### The register as a polynomial remainder -/

theorem shiftLeft_xor (a b k : Nat) : (a ^^^ b) <<< k = (a <<< k) ^^^ (b <<< k) := by
  apply Nat.eq_of_testBit_eq
  intro i
  simp only [Nat.testBit_shiftLeft, Nat.testBit_xor]
  cases decide (i ≥ k) <;> simp

theorem refBitStep_lt (r : Nat) (m : Bool) : refBitStep r m < 65536 := by
  have h : ∀ i, 16 ≤ i → (refBitStep r m).testBit i = false := by
    intro i hi
    rw [refBitStep_testBit]
    have : ¬ (i < 16) := by omega
    simp [this]
  by_contra hge
  have hge2 : 2 ^ 16 ≤ refBitStep r m := by
    have : (2 : Nat) ^ 16 = 65536 := by norm_num
    omega
  obtain ⟨i, hi, hbit⟩ := Nat.ge_two_pow_implies_high_bit_true hge2
  rw [h i hi] at hbit
  cases hbit

/-- One bit-serial step is multiplication by `x`, addition of the message bit times
`x^16`, and possibly addition of the generator. -/
theorem refBitStep_poly (r : Nat) (m : Bool) (hr : r < 65536) :
    refBitStep r m =
      (r <<< 1) ^^^ (m.toNat <<< 16) ^^^ (if (r.testBit 15 != m) then CCITT_POLY else 0) := by
  have hhigh : ∀ j, 16 ≤ j → r.testBit j = false := by
    intro j hj
    apply Nat.testBit_lt_two_pow
    calc r < 2 ^ 16 := by simpa using hr
      _ ≤ 2 ^ j := Nat.pow_le_pow_right (by norm_num) hj
  have hG : ∀ i, CCITT_POLY.testBit i =
      (if i = 16 then true else (decide (i < 16) && (0x1021 : Nat).testBit i)) := by
    intro i
    have e : CCITT_POLY = 2 ^ 16 + 0x1021 := by unfold CCITT_POLY; norm_num
    by_cases h16 : i = 16
    · subst h16
      decide
    · rw [if_neg h16, e]
      by_cases hlt : i < 16
      · rw [Nat.testBit_two_pow_add_gt hlt]
        simp [hlt]
      · have hgt : 17 ≤ i := by omega
        have : (2 ^ 16 + 0x1021 : Nat).testBit i = false := by
          apply Nat.testBit_lt_two_pow
          calc (2 ^ 16 + 0x1021 : Nat) < 2 ^ 17 := by norm_num
            _ ≤ 2 ^ i := Nat.pow_le_pow_right (by norm_num) hgt
        rw [this]
        simp [hlt]
  apply Nat.eq_of_testBit_eq
  intro i
  rw [refBitStep_testBit, Nat.testBit_xor, Nat.testBit_xor, Nat.testBit_shiftLeft,
    Nat.testBit_shiftLeft, Nat.testBit_bool_to_nat]
  have hc : (if (r.testBit 15 != m) = true then CCITT_POLY else 0).testBit i =
      ((r.testBit 15 != m) && CCITT_POLY.testBit i) := by
    cases (r.testBit 15 != m) <;> simp
  rw [hc, hG]
  by_cases hlt : i < 16
  · have h1 : ¬ (i ≥ 16) := by omega
    have h2 : ¬ (i = 16) := by omega
    simp only [hlt, h1, h2, decide_True, decide_False, Bool.true_and, Bool.false_and,
      Bool.xor_false, if_false, ge_iff_le]
  · by_cases h16 : i = 16
    · subst h16
      simp only [if_true, Bool.and_true]
      cases r.testBit 15 <;> cases m <;> decide
    · have h1 : i ≥ 16 := by omega
      have h2 : ¬ (i - 16 = 0) := by omega
      have h3 : r.testBit (i - 1) = false := hhigh (i - 1) (by omega)
      simp [hlt, h16, h2, h3]

theorem polyMultiple_shift (S : List Nat) (k : Nat) :
    polyMultiple (S.map (fun s => s + k)) = polyMultiple S <<< k := by
  induction S with
  | nil => simp [polyMultiple]
  | cons s S ih =>
    show (CCITT_POLY <<< (s + k)) ^^^ polyMultiple (S.map (fun s => s + k)) =
      ((CCITT_POLY <<< s) ^^^ polyMultiple S) <<< k
    rw [ih, shiftLeft_xor, Nat.shiftLeft_add]

/-- The bit-serial register run over `bs` from `r0` is `r0 * x^|bs| + bits * x^16` up to
a multiple of the generator. -/
theorem foldl_refBitStep_poly (bs : List Bool) (r0 : Nat) (hr : r0 < 65536) :
    ∃ S : List Nat, bs.foldl refBitStep r0 =
      (r0 <<< bs.length) ^^^ (bitsPoly bs <<< 16) ^^^ polyMultiple S := by
  induction bs generalizing r0 with
  | nil => exact ⟨[], by simp [bitsPoly, polyMultiple]⟩
  | cons b bs ih =>
    obtain ⟨S, hS⟩ := ih (refBitStep r0 b) (refBitStep_lt r0 b)
    have hstep := refBitStep_poly r0 b hr
    refine ⟨if (r0.testBit 15 != b) then bs.length :: S else S, ?_⟩
    show bs.foldl refBitStep (refBitStep r0 b) = _
    rw [hS]
    have hshift : refBitStep r0 b <<< bs.length =
        (r0 <<< (bs.length + 1)) ^^^ (b.toNat <<< (bs.length + 16)) ^^^
          ((if (r0.testBit 15 != b) then CCITT_POLY else 0) <<< bs.length) := by
      rw [hstep, shiftLeft_xor, shiftLeft_xor, ← Nat.shiftLeft_add, ← Nat.shiftLeft_add,
        Nat.add_comm 1, Nat.add_comm 16]
    have hbits : bitsPoly (b :: bs) <<< 16 =
        (b.toNat <<< (bs.length + 16)) ^^^ (bitsPoly bs <<< 16) := by
      show ((b.toNat <<< bs.length) ^^^ bitsPoly bs) <<< 16 = _
      rw [shiftLeft_xor, ← Nat.shiftLeft_add]
    rw [hshift, hbits, List.length_cons]
    cases (r0.testBit 15 != b)
    · simp only [Bool.false_eq_true, if_false, Nat.zero_shiftLeft, Nat.xor_zero]
      ac_rfl
    · simp only [if_true]
      show _ = _ ^^^ ((CCITT_POLY <<< bs.length) ^^^ polyMultiple S)
      ac_rfl

theorem bitsMsbFirst_length (k v : Nat) : (bitsMsbFirst k v).length = k := by
  induction k with
  | zero => rfl
  | succ k ih => simp [bitsMsbFirst, ih]

theorem bitsPoly_bitsMsbFirst (k v : Nat) : bitsPoly (bitsMsbFirst k v) = v % 2 ^ k := by
  induction k with
  | zero => simp [bitsMsbFirst, bitsPoly, Nat.mod_one]
  | succ k ih =>
    show ((v.testBit k).toNat <<< (bitsMsbFirst k v).length) ^^^ bitsPoly (bitsMsbFirst k v) = _
    rw [ih, bitsMsbFirst_length]
    apply Nat.eq_of_testBit_eq
    intro i
    rw [Nat.testBit_xor, Nat.testBit_shiftLeft, Nat.testBit_bool_to_nat, Nat.testBit_mod_two_pow,
      Nat.testBit_mod_two_pow]
    by_cases h1 : i < k
    · have h2 : ¬ (i ≥ k) := by omega
      have h3 : i < k + 1 := by omega
      simp [h1, h2, h3]
    · by_cases h2 : i = k
      · subst h2
        simp
      · have h3 : ¬ (i < k + 1) := by omega
        have h4 : ¬ (i - k = 0) := by omega
        simp [h1, h3, h4]

theorem bitsPoly_append (xs ys : List Bool) :
    bitsPoly (xs ++ ys) = (bitsPoly xs <<< ys.length) ^^^ bitsPoly ys := by
  induction xs with
  | nil => simp [bitsPoly]
  | cons x xs ih =>
    show (x.toNat <<< (xs ++ ys).length) ^^^ bitsPoly (xs ++ ys) =
      (((x.toNat <<< xs.length) ^^^ bitsPoly xs) <<< ys.length) ^^^ bitsPoly ys
    rw [ih, shiftLeft_xor, ← Nat.shiftLeft_add, List.length_append]
    ac_rfl

theorem messageBits_length (data : List Byte) : (messageBits data).length = 8 * data.length := by
  induction data with
  | nil => rfl
  | cons d ds ih =>
    unfold messageBits at ih ⊢
    rw [List.flatMap_cons, List.length_append, ih, bitsMsbFirst_length, List.length_cons]
    omega

theorem bitsPoly_messageBits (data : List Byte) : bitsPoly (messageBits data) = messagePoly data := by
  induction data with
  | nil => rfl
  | cons d ds ih =>
    have hl := messageBits_length ds
    unfold messageBits at ih hl ⊢
    rw [List.flatMap_cons, bitsPoly_append, ih, hl, bitsPoly_bitsMsbFirst]
    have : d.val % 2 ^ 8 = d.val := Nat.mod_eq_of_lt d.isLt
    rw [this]
    rfl

/-- The reference CRC is the remainder of `seed * x^(8 n) + message * x^16` modulo the
generator. -/
theorem refCrc16_remainder (data : List Byte) (seed : Nat) :
    IsCcittRemainder
      (((seed % 65536) <<< (8 * data.length)) ^^^ (messagePoly data <<< 16))
      (refCrc16 data seed) := by
  have hs : seed % 65536 < 65536 := Nat.mod_lt _ (by decide)
  obtain ⟨S, hS⟩ := foldl_refBitStep_poly (messageBits data) (seed % 65536) hs
  rw [messageBits_length, bitsPoly_messageBits] at hS
  constructor
  · unfold refCrc16
    have hlt : ∀ (bs : List Bool) (r : Nat), r < 65536 → bs.foldl refBitStep r < 65536 := by
      intro bs
      induction bs with
      | nil => intro r hr; exact hr
      | cons b bs ih => intro r _; exact ih _ (refBitStep_lt r b)
    exact hlt _ _ hs
  · refine ⟨S, ?_⟩
    unfold refCrc16
    rw [hS]
    generalize ((seed % 65536) <<< (8 * data.length)) ^^^ (messagePoly data <<< 16) = T
    rw [Nat.xor_comm T, ← Nat.xor_assoc, Nat.xor_self, Nat.zero_xor]

/-! ### The remainder is unique -/

theorem polyMultiple_cons (s : Nat) (S : List Nat) :
    polyMultiple (s :: S) = (CCITT_POLY <<< s) ^^^ polyMultiple S := rfl

theorem polyMultiple_append (S T : List Nat) :
    polyMultiple (S ++ T) = polyMultiple S ^^^ polyMultiple T := by
  induction S with
  | nil => simp [polyMultiple]
  | cons s S ih =>
    rw [List.cons_append, polyMultiple_cons, polyMultiple_cons, ih, Nat.xor_assoc]

theorem ccittPoly_testBit_high (j : Nat) (hj : 16 < j) : CCITT_POLY.testBit j = false := by
  apply Nat.testBit_lt_two_pow
  calc CCITT_POLY < 2 ^ 17 := by unfold CCITT_POLY; norm_num
    _ ≤ 2 ^ j := Nat.pow_le_pow_right (by norm_num) hj

/-- The coefficient of `x^(16 + m)` in a multiple whose shifts are all at most `m` is the
parity of the number of shifts equal to `m`. -/
theorem polyMultiple_testBit_top (S : List Nat) (m : Nat) (h : ∀ s ∈ S, s ≤ m) :
    (polyMultiple S).testBit (16 + m) = decide (S.count m % 2 = 1) := by
  induction S with
  | nil => simp [polyMultiple]
  | cons s S ih =>
    have hs : s ≤ m := h s (List.mem_cons_self _ _)
    have ih2 := ih (fun t ht => h t (List.mem_cons_of_mem _ ht))
    rw [polyMultiple_cons, Nat.testBit_xor, Nat.testBit_shiftLeft, ih2]
    have hge : decide (16 + m ≥ s) = true := by simp; omega
    rw [hge, Bool.true_and]
    by_cases hsm : s = m
    · subst hsm
      have e : 16 + s - s = 16 := by omega
      have h16 : CCITT_POLY.testBit 16 = true := by decide
      rw [e, h16, List.count_cons_self]
      by_cases hpar : S.count s % 2 = 1
      · have : ¬ ((S.count s + 1) % 2 = 1) := by omega
        simp [hpar, this]
      · have : (S.count s + 1) % 2 = 1 := by omega
        simp [hpar, this]
    · have hhigh := ccittPoly_testBit_high (16 + m - s) (by omega)
      rw [hhigh, List.count_cons_of_ne (fun h => hsm h.symm)]
      simp

/-- Removing all copies of `m` changes a multiple by the generator shifted by `m` when
their number is odd, and not at all when it is even. -/
theorem polyMultiple_filter (S : List Nat) (m : Nat) :
    polyMultiple S =
      (if S.count m % 2 = 1 then CCITT_POLY <<< m else 0) ^^^
        polyMultiple (S.filter (fun s => decide (s ≠ m))) := by
  induction S with
  | nil => simp [polyMultiple]
  | cons s S ih =>
    rw [polyMultiple_cons, ih]
    by_cases hsm : s = m
    · subst hsm
      have hf : (s :: S).filter (fun t => decide (t ≠ s)) = S.filter (fun t => decide (t ≠ s)) := by
        simp [List.filter_cons]
      rw [hf, List.count_cons_self]
      by_cases hpar : S.count s % 2 = 1
      · have : ¬ ((S.count s + 1) % 2 = 1) := by omega
        rw [if_pos hpar, if_neg this, ← Nat.xor_assoc, Nat.xor_self]
      · have : (S.count s + 1) % 2 = 1 := by omega
        rw [if_neg hpar, if_pos this, Nat.zero_xor]
    · have hf : (s :: S).filter (fun t => decide (t ≠ m)) =
          s :: S.filter (fun t => decide (t ≠ m)) := by
        simp [List.filter_cons, hsm]
      rw [hf, polyMultiple_cons, List.count_cons_of_ne (fun h => hsm h.symm)]
      ac_rfl

theorem exists_max_mem (S : List Nat) (hne : S ≠ []) : ∃ m, m ∈ S ∧ ∀ s ∈ S, s ≤ m := by
  induction S with
  | nil => exact absurd rfl hne
  | cons a A ih =>
    by_cases hA : A = []
    · subst hA
      exact ⟨a, List.mem_cons_self _ _, fun s hs => by simp at hs; omega⟩
    · obtain ⟨m, hm, hmax⟩ := ih hA
      by_cases ham : a ≤ m
      · refine ⟨m, List.mem_cons_of_mem _ hm, ?_⟩
        intro s hs
        rcases List.mem_cons.mp hs with h | h
        · omega
        · exact hmax s h
      · refine ⟨a, List.mem_cons_self _ _, ?_⟩
        intro s hs
        rcases List.mem_cons.mp hs with h | h
        · omega
        · have := hmax s h
          omega

/-- A multiple of the generator of degree below 16 is zero. -/
theorem polyMultiple_small (n : Nat) : ∀ S : List Nat, S.length ≤ n →
    polyMultiple S < 2 ^ 16 → polyMultiple S = 0 := by
  induction n with
  | zero =>
    intro S hlen _
    have : S = [] := List.length_eq_zero.mp (by omega)
    rw [this]
    rfl
  | succ n ih =>
    intro S hlen hsmall
    cases hS : S with
    | nil => rfl
    | cons a A =>
      rw [← hS]
      obtain ⟨m, hmem, hmax⟩ := exists_max_mem S (by rw [hS]; simp)
      have htop := polyMultiple_testBit_top S m hmax
      have hbit : (polyMultiple S).testBit (16 + m) = false := by
        apply Nat.testBit_lt_two_pow
        calc polyMultiple S < 2 ^ 16 := hsmall
          _ ≤ 2 ^ (16 + m) := Nat.pow_le_pow_right (by norm_num) (by omega)
      rw [hbit] at htop
      have hpar : ¬ (S.count m % 2 = 1) := by
        intro hp
        simp [hp] at htop
      have hfilt := polyMultiple_filter S m
      rw [if_neg hpar, Nat.zero_xor] at hfilt
      have hlt : (S.filter (fun s => decide (s ≠ m))).length < S.length := by
        apply List.length_filter_lt_length_iff_exists.mpr
        exact ⟨m, hmem, by simp⟩
      rw [hfilt]
      apply ih
      · omega
      · rw [← hfilt]
        exact hsmall

/-- A polynomial has at most one remainder modulo the generator. -/
theorem ccittRemainder_unique (p r1 r2 : Nat) (h1 : IsCcittRemainder p r1)
    (h2 : IsCcittRemainder p r2) : r1 = r2 := by
  obtain ⟨hr1, S1, hS1⟩ := h1
  obtain ⟨hr2, S2, hS2⟩ := h2
  have hx : polyMultiple (S1 ++ S2) = r1 ^^^ r2 := by
    rw [polyMultiple_append]
    have e1 : polyMultiple S1 = p ^^^ r1 := by rw [hS1, Nat.xor_assoc, Nat.xor_self, Nat.xor_zero]
    have e2 : polyMultiple S2 = p ^^^ r2 := by rw [hS2, Nat.xor_assoc, Nat.xor_self, Nat.xor_zero]
    rw [e1, e2]
    have : p ^^^ r1 ^^^ (p ^^^ r2) = (p ^^^ p) ^^^ (r1 ^^^ r2) := by ac_rfl
    rw [this, Nat.xor_self, Nat.zero_xor]
  have hsmall : polyMultiple (S1 ++ S2) < 2 ^ 16 := by
    rw [hx]
    exact Nat.xor_lt_two_pow hr1 hr2
  have hz := polyMultiple_small _ (S1 ++ S2) (le_refl _) hsmall
  rw [hx] at hz
  exact Nat.xor_eq_zero.mp hz

/-! ## Integrity checker: claim C4 -/

set_option maxRecDepth 100000 in
/-- C4: for every byte sequence and every seed, `crc16_ccitt` equals the reference
bit-serial CRC-16/CCITT (polynomial `0x1021`, each byte most significant bit first, no
reflection, no final xor, register started at the seed); equivalently it is the
remainder, and the only one, of `seed * x^(8 n) + message * x^16` modulo
`x^16 + x^12 + x^5 + 1` over GF(2); and the nine ASCII bytes `123456789` with the default seed `0xFFFF` give `0x29B1`. -/
theorem c4_crc16_is_ccitt :
    (∀ (data : List Byte) (seed : Nat), crc16_ccitt data seed = refCrc16 data seed) ∧
    (∀ (data : List Byte) (seed : Nat),
      IsCcittRemainder
        (((seed % 65536) <<< (8 * data.length)) ^^^ (messagePoly data <<< 16))
        (crc16_ccitt data seed) ∧
      ∀ r, IsCcittRemainder
        (((seed % 65536) <<< (8 * data.length)) ^^^ (messagePoly data <<< 16)) r →
        r = crc16_ccitt data seed) ∧
    crc16_ccitt checkString CRC_SEED = 0x29B1 := by
  have h1 : ∀ (data : List Byte) (seed : Nat), crc16_ccitt data seed = refCrc16 data seed := by
    intro data seed
    rw [crc16_ccitt_eq_foldl]
    exact foldl_crcByte_eq_ref data (seed % 65536) (Nat.mod_lt _ (by decide))
  refine ⟨h1, ?_, by decide⟩
  intro data seed
  rw [h1]
  exact ⟨refCrc16_remainder data seed,
    fun r hr => ccittRemainder_unique _ r _ hr (refCrc16_remainder data seed)⟩

/-! ## Slot scanner: lemmas -/

theorem scanStep_inv (w : Nat) (bus : ReadBus) (dev : Device) (e : Engine) (n : Nat)
    (best : Option (Nat × Nat × List Byte)) (h : ScanInv w bus dev e n best) :
    ScanInv w bus dev e (n + 1) (scanStep w bus dev e best n) := by
  unfold scanStep
  cases hs : scanSlot w bus dev e n with
  | none =>
    simp only
    cases best with
    | none =>
      intro j hj
      by_cases hjn : j = n
      · rw [hjn]; exact hs
      · exact h j (by omega)
    | some b =>
      obtain ⟨i, c, r⟩ := b
      obtain ⟨h1, h2, h3⟩ := h
      refine ⟨by omega, h2, ?_⟩
      intro j hj c2 r2 hj2
      by_cases hjn : j = n
      · rw [hjn, hs] at hj2; cases hj2
      · exact h3 j (by omega) c2 r2 hj2
  | some cr =>
    obtain ⟨cn, rn⟩ := cr
    simp only
    cases best with
    | none =>
      refine ⟨by omega, hs, ?_⟩
      intro j hj c2 r2 hj2
      by_cases hjn : j = n
      · subst hjn
        rw [hs] at hj2
        cases hj2
        exact Or.inr ⟨rfl, le_refl _⟩
      · rw [h j (by omega)] at hj2; cases hj2
    | some b =>
      obtain ⟨i, c, r⟩ := b
      obtain ⟨h1, h2, h3⟩ := h
      simp only
      by_cases hgt : cn > c
      · rw [if_pos hgt]
        refine ⟨by omega, hs, ?_⟩
        intro j hj c2 r2 hj2
        by_cases hjn : j = n
        · subst hjn
          rw [hs] at hj2
          cases hj2
          exact Or.inr ⟨rfl, le_refl _⟩
        · rcases h3 j (by omega) c2 r2 hj2 with h4 | ⟨h4, _⟩
          · exact Or.inl (by omega)
          · exact Or.inl (by omega)
      · rw [if_neg hgt]
        refine ⟨by omega, h2, ?_⟩
        intro j hj c2 r2 hj2
        by_cases hjn : j = n
        · subst hjn
          rw [hs] at hj2
          cases hj2
          by_cases heq : cn = c
          · exact Or.inr ⟨heq, by omega⟩
          · exact Or.inl (by omega)
        · exact h3 j (by omega) c2 r2 hj2

theorem scanLoop_inv (w : Nat) (bus : ReadBus) (dev : Device) (e : Engine) (n : Nat) :
    ScanInv w bus dev e n ((List.range n).foldl (scanStep w bus dev e) none) := by
  induction n with
  | zero =>
    intro j hj
    omega
  | succ n ih =>
    rw [List.range_succ, List.foldl_append]
    exact scanStep_inv w bus dev e n _ ih

/-- The scan selects a valid slot of greatest counter, the lowest index among equals;
it selects none exactly when no slot is valid. -/
theorem selectActiveSlot_inv (w : Nat) (bus : ReadBus) (dev : Device) (e : Engine) :
    ScanInv w bus dev e e.numSlots (selectActiveSlot w bus dev e) :=
  scanLoop_inv w bus dev e e.numSlots

/-- A slot found valid by `scanSlot` is one whose footer read succeeds, whose record
read succeeds and whose stored CRC equals the CRC recomputed over the record. -/
theorem scanSlot_eq_some_iff (w : Nat) (bus : ReadBus) (dev : Device) (e : Engine)
    (j c : Nat) (r : List Byte) :
    scanSlot w bus dev e j = some (c, r) ↔
      ∃ crc, readSlotFooter w bus dev e j = some (c, crc) ∧
        readSlotData w bus dev e j = some r ∧ crc16_ccitt r CRC_SEED = crc := by
  unfold scanSlot
  cases hf : readSlotFooter w bus dev e j with
  | none => simp
  | some f =>
    obtain ⟨c1, crc1⟩ := f
    cases hd : readSlotData w bus dev e j with
    | none => simp
    | some r1 =>
      simp only
      by_cases hcrc : crc16_ccitt r1 CRC_SEED = crc1
      · rw [if_pos hcrc]
        constructor
        · intro h
          cases h
          exact ⟨crc1, rfl, rfl, hcrc⟩
        · rintro ⟨crc, h1, h2, h3⟩
          cases h1
          cases h2
          rfl
      · rw [if_neg hcrc]
        constructor
        · intro h
          cases h
        · rintro ⟨crc, h1, h2, h3⟩
          cases h1
          cases h2
          exact absurd h3 hcrc

/-- The scanner reads the engine only through `userSize` and `slotSize`. -/
theorem scanSlot_congr (w : Nat) (bus : ReadBus) (dev : Device) (e1 e2 : Engine) (j : Nat)
    (hu : e1.userSize = e2.userSize) (hs : e1.slotSize = e2.slotSize) :
    scanSlot w bus dev e1 j = scanSlot w bus dev e2 j := by
  unfold scanSlot readSlotFooter readSlotData slotBaseAddress
  rw [hu, hs]

theorem selectActiveSlot_congr (w : Nat) (bus : ReadBus) (dev : Device) (e1 e2 : Engine)
    (hu : e1.userSize = e2.userSize) (hs : e1.slotSize = e2.slotSize)
    (hn : e1.numSlots = e2.numSlots) :
    selectActiveSlot w bus dev e1 = selectActiveSlot w bus dev e2 := by
  unfold selectActiveSlot
  rw [hn]
  have : scanStep w bus dev e1 = scanStep w bus dev e2 := by
    funext best j
    unfold scanStep
    rw [scanSlot_congr w bus dev e1 e2 j hu hs]
  rw [this]

/-! ## Slot scanner: claim C6 -/

/-- C6: for every device image and bus, `pickActiveSlotOnInit` either loads record and
counter of a valid slot `i` (footer read succeeds, stored CRC equals the CRC recomputed
over the record) such that every valid slot has a smaller counter, or the same counter
and an index not below `i`; or no slot is valid, and then the active buffer is
`userSize` bytes `0xFF` and `getActiveCounter()` is 0. -/
theorem c6_active_slot_selection (w : Nat) (bus : ReadBus) (dev : Device) (e : Engine) :
    (∃ i c r, i < e.numSlots ∧ SlotValid w bus dev e i c r ∧
        (∀ j c2 r2, j < e.numSlots → SlotValid w bus dev e j c2 r2 → c2 < c ∨ (c2 = c ∧ i ≤ j)) ∧
        activeBuffer (pickActiveSlotOnInit w bus dev e) = r ∧
        getActiveCounter (pickActiveSlotOnInit w bus dev e) = c) ∨
    ((∀ j c2 r2, j < e.numSlots → ¬ SlotValid w bus dev e j c2 r2) ∧
        activeBuffer (pickActiveSlotOnInit w bus dev e) = List.replicate e.userSize ERASED ∧
        getActiveCounter (pickActiveSlotOnInit w bus dev e) = 0) := by
  have hinv := selectActiveSlot_inv w bus dev e
  unfold pickActiveSlotOnInit activeBuffer getActiveCounter
  cases hsel : selectActiveSlot w bus dev e with
  | none =>
    rw [hsel] at hinv
    right
    refine ⟨?_, rfl, rfl⟩
    intro j c2 r2 hj hv
    have h1 := (scanSlot_eq_some_iff w bus dev e j c2 r2).mpr hv
    rw [hinv j hj] at h1
    cases h1
  | some b =>
    obtain ⟨i, c, r⟩ := b
    rw [hsel] at hinv
    obtain ⟨h1, h2, h3⟩ := hinv
    left
    refine ⟨i, c, r, h1, (scanSlot_eq_some_iff w bus dev e i c r).mp h2, ?_, rfl, rfl⟩
    intro j c2 r2 hj hv
    exact h3 j hj c2 r2 ((scanSlot_eq_some_iff w bus dev e j c2 r2).mpr hv)

/-! ## Write scheduler: lemmas -/

theorem isWritePending_eq_true_iff (e : Engine) :
    isWritePending e = true ↔ e.state ≠ WriteState.Idle := by
  unfold isWritePending
  simp

theorem isWritePending_eq_false_iff (e : Engine) :
    isWritePending e = false ↔ e.state = WriteState.Idle := by
  unfold isWritePending
  simp

/-! ### One step of `task()`, case by case -/

theorem task_idle (w : Nat) (o : WriteOutcome) (e : Engine) (dev : Device)
    (hst : e.state = WriteState.Idle) : task w o (e, dev) = (e, dev) := by
  unfold task
  simp only [hst]

theorem task_notReady (w : Nat) (s : Engine × Device) : task w WriteOutcome.notReady s = s := by
  obtain ⟨e, dev⟩ := s
  unfold task
  cases hst : e.state <;> simp only [hst]

theorem task_data_ok (w : Nat) (e : Engine) (dev : Device) (p : Nat)
    (hst : e.state = WriteState.WritingData p) :
    task w WriteOutcome.ok (e, dev) =
      ({ e with state := if p + 1 ≥ dataPages e then WriteState.WritingFooter
                         else WriteState.WritingData (p + 1) },
       storeBytes dev (slotBaseAddress w e e.writeSlotIndex + p * PAGE_SIZE) (dataPage e p)) := by
  unfold task
  simp only [hst, writePageToEeprom, if_true]
  split <;> rfl

theorem task_data_error (w : Nat) (e : Engine) (dev : Device) (p : Nat)
    (hst : e.state = WriteState.WritingData p) :
    task w WriteOutcome.error (e, dev) = ({ e with state := WriteState.Idle }, dev) := by
  unfold task
  simp [hst, writePageToEeprom]

theorem task_footer_ok (w : Nat) (e : Engine) (dev : Device)
    (hst : e.state = WriteState.WritingFooter) :
    task w WriteOutcome.ok (e, dev) =
      ({ e with activeRam := e.writeRam, activeCounter := e.nextCounter,
                activeSlotIndex := e.writeSlotIndex, state := WriteState.Idle },
       storeBytes dev (slotBaseAddress w e e.writeSlotIndex + (e.slotPages - 1) * PAGE_SIZE)
         (footerPage e e.writeRam e.nextCounter (crc16_ccitt e.writeRam CRC_SEED))) := by
  unfold task
  simp [hst, writeFooterPage, writePageToEeprom]

theorem task_footer_error (w : Nat) (e : Engine) (dev : Device)
    (hst : e.state = WriteState.WritingFooter) :
    task w WriteOutcome.error (e, dev) = ({ e with state := WriteState.Idle }, dev) := by
  unfold task
  simp [hst, writeFooterPage, writePageToEeprom]

theorem task_activeKept (w : Nat) (o : WriteOutcome) (a : List Byte) (c : Nat)
    (s : Engine × Device) (h : ActiveKept a c s) : ActiveKept a c (task w o s) := by
  obtain ⟨e, dev⟩ := s
  unfold ActiveKept at h ⊢
  simp only at h
  cases hst : e.state with
  | Idle =>
    rw [task_idle w o e dev hst]
    intro hne
    exact absurd hst hne
  | WritingData p =>
    have hk := h (by rw [hst]; simp)
    cases o with
    | ok => rw [task_data_ok w e dev p hst]; intro _; exact hk
    | notReady => rw [task_notReady]; intro _; exact hk
    | error => rw [task_data_error w e dev p hst]; intro hne; exact absurd rfl hne
  | WritingFooter =>
    have hk := h (by rw [hst]; simp)
    cases o with
    | ok => rw [task_footer_ok w e dev hst]; intro hne; exact absurd rfl hne
    | notReady => rw [task_notReady]; intro _; exact hk
    | error => rw [task_footer_error w e dev hst]; intro hne; exact absurd rfl hne

theorem runTasks_activeKept (w : Nat) (os : List WriteOutcome) (a : List Byte) (c : Nat)
    (s : Engine × Device) (h : ActiveKept a c s) : ActiveKept a c (runTasks w os s) := by
  induction os generalizing s with
  | nil => exact h
  | cons o os ih => exact ih (task w o s) (task_activeKept w o a c s h)

/-- A call of `task()` that meets a channel error while a write is pending clears the
pending flag and changes neither active buffer nor active counter. -/
theorem task_error (w : Nat) (s : Engine × Device) (h : s.1.state ≠ WriteState.Idle) :
    (task w WriteOutcome.error s).1.state = WriteState.Idle ∧
    (task w WriteOutcome.error s).1.activeRam = s.1.activeRam ∧
    (task w WriteOutcome.error s).1.activeCounter = s.1.activeCounter ∧
    (task w WriteOutcome.error s).2 = s.2 := by
  obtain ⟨e, dev⟩ := s
  simp only at h
  cases hst : e.state with
  | Idle => exact absurd hst h
  | WritingData p => rw [task_data_error w e dev p hst]; exact ⟨rfl, rfl, rfl, rfl⟩
  | WritingFooter => rw [task_footer_error w e dev hst]; exact ⟨rfl, rfl, rfl, rfl⟩

/-! ## Write scheduler: claims C7 and C8 -/

/-- C7: in every state in which a write is pending, `commit()` returns `false` and leaves
every field of the object unchanged; in every state in which none is pending,
`commit()` returns `true`, the in-flight buffer becomes a copy of the edit buffer and a
write is pending. -/
theorem c7_single_outstanding_commit (e : Engine) :
    (isWritePending e = true → commit e = (false, e)) ∧
    (isWritePending e = false →
      (commit e).1 = true ∧ (commit e).2.writeRam = editBuffer e ∧
        isWritePending (commit e).2 = true) := by
  constructor
  · intro h
    have hs := (isWritePending_eq_true_iff e).mp h
    unfold commit
    rw [if_pos hs]
  · intro h
    have hs := (isWritePending_eq_false_iff e).mp h
    unfold commit
    rw [if_neg (by simp [hs])]
    refine ⟨rfl, rfl, ?_⟩
    simp [isWritePending]

set_option maxRecDepth 1000000 in
/-- C7, witness: on an engine started on a blank device `commit()` is accepted and
snapshots the edit buffer; on the engine it leaves, a second `commit()` is rejected and
changes nothing. -/
theorem c7_single_outstanding_commit_witness :
    commit (commit blankEngine).2 = (false, (commit blankEngine).2) ∧
    ((commit blankEngine).1 = true ∧ (commit blankEngine).2.writeRam = editBuffer blankEngine ∧
      isWritePending (commit blankEngine).2 = true) :=
  ⟨(c7_single_outstanding_commit (commit blankEngine).2).1 (by decide),
    (c7_single_outstanding_commit blankEngine).2 (by decide)⟩

/-- C8: for every commit accepted from an idle engine and every sequence of `task()`
calls after it, if a write is still pending and the channel fails on the page write
(data page or footer page) of the next `task()` call, then after that call
`isWritePending()` is false and `getActiveCounter()` and `activeBuffer()` are what they
were before `commit()`. -/
theorem c8_abandonment (w : Nat) (e : Engine) (dev : Device) (record : List Byte)
    (os : List WriteOutcome) (hidle : isWritePending e = false)
    (hpending : isWritePending (commitCycle w os record (e, dev)).1 = true) :
    isWritePending (task w WriteOutcome.error (commitCycle w os record (e, dev))).1 = false ∧
    getActiveCounter (task w WriteOutcome.error (commitCycle w os record (e, dev))).1 =
      getActiveCounter e ∧
    activeBuffer (task w WriteOutcome.error (commitCycle w os record (e, dev))).1 =
      activeBuffer e := by
  have hs := (isWritePending_eq_false_iff e).mp hidle
  have hp := (isWritePending_eq_true_iff _).mp hpending
  have h0 : ActiveKept e.activeRam e.activeCounter ((commit (setEdit e record)).2, dev) := by
    intro _
    unfold commit setEdit
    simp only [hs]
    exact ⟨rfl, rfl⟩
  have hk := runTasks_activeKept w os _ _ _ h0
  have hkept := hk hp
  obtain ⟨h1, h2, h3, _⟩ := task_error w _ hp
  refine ⟨(isWritePending_eq_false_iff _).mpr h1, ?_, ?_⟩
  · unfold getActiveCounter
    rw [h3]
    exact hkept.2
  · unfold activeBuffer
    rw [h2]
    exact hkept.1

set_option maxRecDepth 1000000 in
/-- C8, witness: on an engine started on a blank device, a commit whose first page write
succeeds and whose footer write fails is abandoned with counter and active buffer as
before. -/
theorem c8_abandonment_witness :
    isWritePending blankEngine = false ∧
    isWritePending (commitCycle 16 [WriteOutcome.ok] [7] (blankEngine, blankDevice)).1 = true ∧
    isWritePending (task 16 WriteOutcome.error
      (commitCycle 16 [WriteOutcome.ok] [7] (blankEngine, blankDevice))).1 = false ∧
    getActiveCounter (task 16 WriteOutcome.error
      (commitCycle 16 [WriteOutcome.ok] [7] (blankEngine, blankDevice))).1 =
        getActiveCounter blankEngine ∧
    activeBuffer (task 16 WriteOutcome.error
      (commitCycle 16 [WriteOutcome.ok] [7] (blankEngine, blankDevice))).1 =
        activeBuffer blankEngine :=
  ⟨by decide, by decide,
    c8_abandonment 16 blankEngine blankDevice [7] [WriteOutcome.ok] (by decide) (by decide)⟩

/-! ## Write scheduler: driving a commit to completion -/

theorem withState_self (e : Engine) : withState e e.state = e := rfl

/-- Calls of `task()` that meet no channel error amount to the successful page writes
among them. -/
theorem runTasks_noError (w : Nat) (os : List WriteOutcome) (s : Engine × Device)
    (h : WriteOutcome.error ∉ os) :
    runTasks w os s = (task w WriteOutcome.ok)^[os.count WriteOutcome.ok] s := by
  induction os generalizing s with
  | nil => rfl
  | cons o os ih =>
    have hos : WriteOutcome.error ∉ os := fun hm => h (List.mem_cons_of_mem _ hm)
    show runTasks w os (task w o s) = _
    rw [ih _ hos]
    cases o with
    | ok => rw [List.count_cons_self, Function.iterate_succ_apply]
    | notReady =>
      rw [task_notReady, List.count_cons_of_ne (by decide)]
    | error => exact absurd (List.mem_cons_self _ _) h

theorem okSteps_data (w : Nat) (e : Engine) (dev : Device) (k : Nat)
    (hk : k < max 1 (dataPages e)) :
    (task w WriteOutcome.ok)^[k] (withState e (WriteState.WritingData 0), dev) =
      (withState e (WriteState.WritingData k), dataWritten w e dev k) := by
  induction k with
  | zero => rfl
  | succ k ih =>
    rw [Function.iterate_succ_apply', ih (by omega),
      task_data_ok w (withState e (WriteState.WritingData k)) _ k rfl]
    have hd : dataPages (withState e (WriteState.WritingData k)) = dataPages e := rfl
    have hlt : ¬ (k + 1 ≥ dataPages e) := by omega
    rw [hd, if_neg hlt]
    rfl

theorem okSteps_footer (w : Nat) (e : Engine) (dev : Device) :
    (task w WriteOutcome.ok)^[max 1 (dataPages e)] (withState e (WriteState.WritingData 0), dev) =
      (withState e WriteState.WritingFooter, dataWritten w e dev (max 1 (dataPages e))) := by
  obtain ⟨k, hk⟩ : ∃ k, max 1 (dataPages e) = k + 1 := ⟨max 1 (dataPages e) - 1, by omega⟩
  rw [hk, Function.iterate_succ_apply', okSteps_data w e dev k (by omega),
    task_data_ok w (withState e (WriteState.WritingData k)) _ k rfl]
  have hd : dataPages (withState e (WriteState.WritingData k)) = dataPages e := rfl
  have hge : k + 1 ≥ dataPages e := by omega
  rw [hd, if_pos hge]
  rfl

theorem okSteps_done (w : Nat) (e : Engine) (dev : Device) (m : Nat) :
    (task w WriteOutcome.ok)^[writesNeeded e + m] (withState e (WriteState.WritingData 0), dev) =
      (promoted e, slotWritten w e dev) := by
  induction m with
  | zero =>
    show (task w WriteOutcome.ok)^[max 1 (dataPages e) + 1] _ = _
    rw [Function.iterate_succ_apply', okSteps_footer,
      task_footer_ok w (withState e WriteState.WritingFooter) _ rfl]
    rfl
  | succ m ih =>
    rw [← Nat.add_assoc, Function.iterate_succ_apply', ih]
    exact task_idle w _ _ _ rfl

/-- After `k` successful page writes the commit is still pending exactly when
`k < writesNeeded`. -/
theorem okSteps_pending (w : Nat) (e : Engine) (dev : Device) (k : Nat)
    (hk : k < writesNeeded e) :
    ((task w WriteOutcome.ok)^[k] (withState e (WriteState.WritingData 0), dev)).1.state ≠
      WriteState.Idle := by
  unfold writesNeeded at hk
  by_cases hlt : k < max 1 (dataPages e)
  · rw [okSteps_data w e dev k hlt]
    intro h
    cases h
  · have : k = max 1 (dataPages e) := by omega
    rw [this, okSteps_footer]
    intro h
    cases h

/-! ## Device contents after a completed commit -/

theorem storeBytes_outside (dev : Device) (addr : Nat) (data : List Byte) (a : Nat)
    (h : a < addr ∨ addr + data.length ≤ a) : storeBytes dev addr data a = dev a := by
  unfold storeBytes
  by_cases hle : addr ≤ a
  · rw [if_pos hle]
    have : data.length ≤ a - addr := by omega
    rw [List.getElem?_eq_none this]
    rfl
  · rw [if_neg hle]

theorem storeBytes_inside (dev : Device) (addr : Nat) (data : List Byte) (k : Nat)
    (h : k < data.length) : storeBytes dev addr data (addr + k) = data[k] := by
  unfold storeBytes
  rw [if_pos (Nat.le_add_right addr k), Nat.add_sub_cancel_left, List.getElem?_eq_getElem h]
  rfl

theorem dataPage_length (e : Engine) (p : Nat) : (dataPage e p).length = 32 := by
  unfold dataPage PAGE_SIZE
  simp

theorem dataPage_getElem (e : Engine) (p k : Nat) (hk : k < (dataPage e p).length) :
    (dataPage e p)[k] = (e.writeRam[p * 32 + k]?).getD ERASED := by
  unfold dataPage PAGE_SIZE
  simp

theorem footerPage_length (e : Engine) (r : List Byte) (c crc : Nat) :
    (footerPage e r c crc).length = 32 := by
  unfold footerPage PAGE_SIZE
  simp

theorem footerPage_getElem (e : Engine) (r : List Byte) (c crc k : Nat)
    (hk : k < (footerPage e r c crc).length) :
    (footerPage e r c crc)[k] =
      if (e.slotPages - 1) * 32 + k < e.userSize then (r[(e.slotPages - 1) * 32 + k]?).getD ERASED
      else if e.slotSize - 6 ≤ (e.slotPages - 1) * 32 + k then
        ((encodeFooter c crc)[(e.slotPages - 1) * 32 + k - (e.slotSize - 6)]?).getD ERASED
      else ERASED := by
  unfold footerPage PAGE_SIZE FOOTER_SIZE
  simp

/-- Data page writes stay inside the pages already written. -/
theorem dataWritten_outside (w : Nat) (e : Engine) (dev : Device) (k a : Nat)
    (h : a < slotBaseAddress w e e.writeSlotIndex ∨
      slotBaseAddress w e e.writeSlotIndex + k * 32 ≤ a) :
    dataWritten w e dev k a = dev a := by
  induction k with
  | zero => rfl
  | succ k ih =>
    show storeBytes (dataWritten w e dev k) _ (dataPage e k) a = dev a
    rw [storeBytes_outside _ _ _ _ (by rw [dataPage_length]; unfold PAGE_SIZE; omega)]
    exact ih (by omega)

/-- After `k` data pages the first `32 k` bytes of the slot hold the in-flight record,
padded with `0xFF`. -/
theorem dataWritten_inside (w : Nat) (e : Engine) (dev : Device) (k off : Nat)
    (h : off < k * 32) :
    dataWritten w e dev k (slotBaseAddress w e e.writeSlotIndex + off) =
      (e.writeRam[off]?).getD ERASED := by
  induction k with
  | zero => omega
  | succ k ih =>
    show storeBytes (dataWritten w e dev k) _ (dataPage e k) _ = _
    by_cases hlt : off < k * 32
    · rw [storeBytes_outside _ _ _ _ (by unfold PAGE_SIZE; omega)]
      exact ih hlt
    · have e1 : slotBaseAddress w e e.writeSlotIndex + off =
          (slotBaseAddress w e e.writeSlotIndex + k * PAGE_SIZE) + (off - k * 32) := by
        unfold PAGE_SIZE; omega
      have hlen : off - k * 32 < (dataPage e k).length := by rw [dataPage_length]; omega
      rw [e1, storeBytes_inside _ _ _ _ hlen, dataPage_getElem]
      congr 2
      omega

theorem dataPages_le (e : Engine) (hwf : WellFormed e) :
    e.userSize ≤ max 1 (dataPages e) * 32 ∧ max 1 (dataPages e) ≤ e.slotPages := by
  obtain ⟨h1, h2, _, _⟩ := hwf
  unfold dataPages PAGE_SIZE FOOTER_SIZE at *
  omega

/-- After a completed commit the record region of the target slot holds the in-flight
record. -/
theorem slotWritten_record (w : Nat) (e : Engine) (dev : Device) (hwf : WellFormed e)
    (off : Nat) (hoff : off < e.userSize) :
    slotWritten w e dev (slotBaseAddress w e e.writeSlotIndex + off) =
      (e.writeRam[off]?).getD ERASED := by
  have hd := dataPages_le e hwf
  obtain ⟨h1, h2, _, _⟩ := hwf
  unfold PAGE_SIZE at h1
  unfold FOOTER_SIZE at h2
  unfold slotWritten
  by_cases hlast : (e.slotPages - 1) * 32 ≤ off
  · have e1 : slotBaseAddress w e e.writeSlotIndex + off =
        (slotBaseAddress w e e.writeSlotIndex + (e.slotPages - 1) * PAGE_SIZE) +
          (off - (e.slotPages - 1) * 32) := by
      unfold PAGE_SIZE; omega
    have hlen : off - (e.slotPages - 1) * 32 <
        (footerPage e e.writeRam e.nextCounter (crc16_ccitt e.writeRam CRC_SEED)).length := by
      rw [footerPage_length]; omega
    rw [e1, storeBytes_inside _ _ _ _ hlen, footerPage_getElem]
    have e2 : (e.slotPages - 1) * 32 + (off - (e.slotPages - 1) * 32) = off := by omega
    rw [e2, if_pos hoff]
  · rw [storeBytes_outside _ _ _ _ (by unfold PAGE_SIZE; omega)]
    exact dataWritten_inside w e dev _ off (by omega)

/-- After a completed commit the last six bytes of the target slot hold the footer. -/
theorem slotWritten_footer (w : Nat) (e : Engine) (dev : Device) (hwf : WellFormed e)
    (k : Nat) (hk : k < 6) :
    slotWritten w e dev (slotBaseAddress w e e.writeSlotIndex + e.slotSize - FOOTER_SIZE + k) =
      ((encodeFooter e.nextCounter (crc16_ccitt e.writeRam CRC_SEED))[k]?).getD ERASED := by
  obtain ⟨h1, h2, _, _⟩ := hwf
  unfold PAGE_SIZE at h1
  unfold FOOTER_SIZE at h2
  unfold slotWritten
  have e1 : slotBaseAddress w e e.writeSlotIndex + e.slotSize - FOOTER_SIZE + k =
      (slotBaseAddress w e e.writeSlotIndex + (e.slotPages - 1) * PAGE_SIZE) + (26 + k) := by
    unfold PAGE_SIZE FOOTER_SIZE; omega
  have hlen : 26 + k <
      (footerPage e e.writeRam e.nextCounter (crc16_ccitt e.writeRam CRC_SEED)).length := by
    rw [footerPage_length]; omega
  rw [e1, storeBytes_inside _ _ _ _ hlen, footerPage_getElem]
  have hn : ¬ ((e.slotPages - 1) * 32 + (26 + k) < e.userSize) := by omega
  have hf : e.slotSize - 6 ≤ (e.slotPages - 1) * 32 + (26 + k) := by omega
  have e2 : (e.slotPages - 1) * 32 + (26 + k) - (e.slotSize - 6) = k := by omega
  rw [if_neg hn, if_pos hf, e2]

/-- A completed commit changes no byte outside the target slot. -/
theorem slotWritten_outside (w : Nat) (e : Engine) (dev : Device) (hwf : WellFormed e)
    (a : Nat) (h : a < slotBaseAddress w e e.writeSlotIndex ∨
      slotBaseAddress w e e.writeSlotIndex + e.slotSize ≤ a) :
    slotWritten w e dev a = dev a := by
  have hd := dataPages_le e hwf
  obtain ⟨h1, h2, _, _⟩ := hwf
  unfold PAGE_SIZE at h1
  unfold FOOTER_SIZE at h2
  unfold slotWritten
  rw [storeBytes_outside _ _ _ _ (by rw [footerPage_length]; unfold PAGE_SIZE; omega)]
  apply dataWritten_outside
  rcases h with h | h
  · exact Or.inl h
  · right
    have : max 1 (dataPages e) * 32 ≤ e.slotPages * 32 := Nat.mul_le_mul_right 32 hd.2
    omega

/-! ## Reading back a written slot -/

theorem slot_bounds (e : Engine) (hwf : WellFormed e) (j : Nat) (hj : j < e.numSlots) :
    j * e.slotSize + e.slotSize ≤ 4096 := by
  obtain ⟨_, _, h3, _⟩ := hwf
  unfold EEPROM_TOTAL at h3
  have h : (j + 1) * e.slotSize ≤ e.numSlots * e.slotSize := Nat.mul_le_mul_right _ hj
  rw [Nat.add_mul, Nat.one_mul] at h
  omega

theorem slotBaseAddress_eq (w : Nat) (e : Engine) (hw : 13 ≤ w) (hwf : WellFormed e) (j : Nat)
    (hj : j < e.numSlots) : slotBaseAddress w e j = j * e.slotSize := by
  have hb := slot_bounds e hwf j hj
  have h2 := two_pow_ge hw
  unfold slotBaseAddress szMul
  exact Nat.mod_eq_of_lt (by omega)

theorem slots_disjoint (e : Engine) (i j : Nat) (hij : i ≠ j) :
    i * e.slotSize + e.slotSize ≤ j * e.slotSize ∨ j * e.slotSize + e.slotSize ≤ i * e.slotSize := by
  rcases Nat.lt_or_gt_of_ne hij with h | h
  · left
    have h1 : (i + 1) * e.slotSize ≤ j * e.slotSize := Nat.mul_le_mul_right _ h
    rw [Nat.add_mul, Nat.one_mul] at h1
    exact h1
  · right
    have h1 : (j + 1) * e.slotSize ≤ i * e.slotSize := Nat.mul_le_mul_right _ h
    rw [Nat.add_mul, Nat.one_mul] at h1
    exact h1

theorem eepromReadBytes_reliable (w : Nat) (dev : Device) (addr len : Nat) (hw : 13 ≤ w)
    (h : addr + len ≤ 4096) :
    eepromReadBytes w reliableBus dev addr len = some (deviceBytes dev addr len) := by
  have h2 := two_pow_ge hw
  unfold eepromReadBytes readRange szAdd EEPROM_TOTAL reliableBus
  rw [Nat.mod_eq_of_lt (by omega), if_neg (by omega)]
  rfl

/-- Reads that the bus completes return the same bytes on two devices that agree on
the range read. -/
theorem eepromReadBytes_congr (w : Nat) (bus : ReadBus) (dev1 dev2 : Device) (addr len : Nat)
    (h : ∀ k, k < len → dev1 (addr + k) = dev2 (addr + k)) :
    eepromReadBytes w bus dev1 addr len = eepromReadBytes w bus dev2 addr len := by
  have hb : deviceBytes dev1 addr len = deviceBytes dev2 addr len := by
    unfold deviceBytes
    apply List.map_congr_left
    intro k hk
    exact h k (List.mem_range.mp hk)
  unfold eepromReadBytes readRange
  rw [hb]

theorem deviceBytes_eq (dev : Device) (addr : Nat) (r : List Byte)
    (h : ∀ k, k < r.length → dev (addr + k) = (r[k]?).getD ERASED) :
    deviceBytes dev addr r.length = r := by
  unfold deviceBytes
  apply List.ext_getElem
  · simp
  · intro k h1 h2
    simp only [List.getElem_map, List.getElem_range]
    rw [h k h2, List.getElem?_eq_getElem h2]
    rfl

theorem encodeFooter_length (c crc : Nat) : (encodeFooter c crc).length = 6 := rfl

theorem decodeFooter_encodeFooter (c crc : Nat) (hc : c < 2 ^ 32) (hcrc : crc < 65536) :
    decodeFooter (encodeFooter c crc) = some (c, crc) := by
  unfold encodeFooter decodeFooter toByte
  simp only [Option.some.injEq, Prod.mk.injEq]
  constructor <;> omega

theorem nextCounterOf_lt (a : Nat) : nextCounterOf a < 2 ^ 32 := by
  unfold nextCounterOf
  split
  · norm_num
  · exact Nat.mod_lt _ (by norm_num)

/-- The scanner finds the target slot of a completed commit valid, with the counter and
the record of that commit. -/
theorem scanSlot_written_target (w : Nat) (e : Engine) (dev : Device) (hw : 13 ≤ w)
    (hwf : WellFormed e) (ht : e.writeSlotIndex < e.numSlots)
    (hlen : e.writeRam.length = e.userSize) (hc : e.nextCounter < 2 ^ 32) :
    scanSlot w reliableBus (slotWritten w e dev) e e.writeSlotIndex =
      some (e.nextCounter, e.writeRam) := by
  have hb := slot_bounds e hwf _ ht
  have hbase := slotBaseAddress_eq w e hw hwf _ ht
  have hfit : e.userSize + 6 ≤ e.slotSize := hwf.2.1
  have hfoot : readSlotFooter w reliableBus (slotWritten w e dev) e e.writeSlotIndex =
      some (e.nextCounter, crc16_ccitt e.writeRam CRC_SEED) := by
    unfold readSlotFooter
    rw [eepromReadBytes_reliable w _ _ _ hw (by rw [hbase]; unfold FOOTER_SIZE; omega)]
    simp only
    have hd : deviceBytes (slotWritten w e dev)
        (slotBaseAddress w e e.writeSlotIndex + e.slotSize - FOOTER_SIZE) FOOTER_SIZE =
        encodeFooter e.nextCounter (crc16_ccitt e.writeRam CRC_SEED) := by
      have := deviceBytes_eq (slotWritten w e dev)
        (slotBaseAddress w e e.writeSlotIndex + e.slotSize - FOOTER_SIZE)
        (encodeFooter e.nextCounter (crc16_ccitt e.writeRam CRC_SEED))
        (fun k hk => slotWritten_footer w e dev hwf k (by rw [encodeFooter_length] at hk; exact hk))
      rw [encodeFooter_length] at this
      exact this
    rw [hd]
    exact decodeFooter_encodeFooter _ _ hc (crc16_ccitt_lt _ _)
  have hdata : readSlotData w reliableBus (slotWritten w e dev) e e.writeSlotIndex =
      some e.writeRam := by
    unfold readSlotData
    rw [eepromReadBytes_reliable w _ _ _ hw (by rw [hbase]; omega)]
    have := deviceBytes_eq (slotWritten w e dev) (slotBaseAddress w e e.writeSlotIndex) e.writeRam
      (fun k hk => slotWritten_record w e dev hwf k (by rw [hlen] at hk; exact hk))
    rw [hlen] at this
    rw [this]
  unfold scanSlot
  rw [hfoot, hdata]
  simp

/-- A completed commit leaves what the scanner finds in every other slot unchanged. -/
theorem scanSlot_written_other (w : Nat) (bus : ReadBus) (e : Engine) (dev : Device)
    (hw : 13 ≤ w) (hwf : WellFormed e) (ht : e.writeSlotIndex < e.numSlots) (j : Nat)
    (hj : j < e.numSlots) (hne : j ≠ e.writeSlotIndex) :
    scanSlot w bus (slotWritten w e dev) e j = scanSlot w bus dev e j := by
  have hbt := slotBaseAddress_eq w e hw hwf _ ht
  have hbj := slotBaseAddress_eq w e hw hwf _ hj
  have hfit : e.userSize + 6 ≤ e.slotSize := hwf.2.1
  have hdis := slots_disjoint e j e.writeSlotIndex hne
  have hfoot : readSlotFooter w bus (slotWritten w e dev) e j = readSlotFooter w bus dev e j := by
    unfold readSlotFooter
    rw [eepromReadBytes_congr w bus (slotWritten w e dev) dev]
    intro k hk
    apply slotWritten_outside w e dev hwf
    rw [hbt, hbj]
    unfold FOOTER_SIZE at hk ⊢
    omega
  have hdata : readSlotData w bus (slotWritten w e dev) e j = readSlotData w bus dev e j := by
    unfold readSlotData
    rw [eepromReadBytes_congr w bus (slotWritten w e dev) dev]
    intro k hk
    apply slotWritten_outside w e dev hwf
    rw [hbt, hbj]
    omega
  unfold scanSlot
  rw [hfoot, hdata]

/-! ## Round trip: commit, drive, scan -/

theorem commit_idle (e : Engine) (record : List Byte) (hidle : e.state = WriteState.Idle) :
    commit (setEdit e record) = (true, withState (armed e record) (WriteState.WritingData 0)) := by
  unfold commit
  have h : ¬ ((setEdit e record).state ≠ WriteState.Idle) := by
    intro hne
    exact hne hidle
  rw [if_neg h]
  rfl

/-- A commit cycle without channel error is still pending exactly when fewer than
`writesNeeded` page writes succeeded; otherwise it ended with the in-flight record
promoted and the target slot written. -/
theorem commitCycle_noError (w : Nat) (e : Engine) (dev : Device) (record : List Byte)
    (os : List WriteOutcome) (hidle : e.state = WriteState.Idle)
    (hos : WriteOutcome.error ∉ os) :
    (os.count WriteOutcome.ok < writesNeeded e ∧
      (commitCycle w os record (e, dev)).1.state ≠ WriteState.Idle) ∨
    (writesNeeded e ≤ os.count WriteOutcome.ok ∧
      commitCycle w os record (e, dev) =
        (promoted (armed e record), slotWritten w (armed e record) dev)) := by
  have hn : writesNeeded (armed e record) = writesNeeded e := rfl
  unfold commitCycle
  rw [commit_idle e record hidle, runTasks_noError w os _ hos]
  by_cases hlt : os.count WriteOutcome.ok < writesNeeded e
  · left
    exact ⟨hlt, okSteps_pending w (armed e record) dev _ (by rw [hn]; exact hlt)⟩
  · right
    refine ⟨by omega, ?_⟩
    obtain ⟨m, hm⟩ : ∃ m, os.count WriteOutcome.ok = writesNeeded (armed e record) + m :=
      ⟨os.count WriteOutcome.ok - writesNeeded e, by rw [hn]; omega⟩
    rw [hm]
    exact okSteps_done w (armed e record) dev m

/-- After a completed commit on an engine in sync with the device, the scanner selects
the slot just written. -/
theorem select_after_commit (w : Nat) (e : Engine) (dev : Device) (record : List Byte)
    (hw : 13 ≤ w) (hwf : WellFormed e) (hlen : record.length = e.userSize)
    (hsync : ∀ j c r, j < e.numSlots → scanSlot w reliableBus dev e j = some (c, r) →
      c ≤ e.activeCounter)
    (hctr : e.activeCounter + 1 < 2 ^ 32) :
    selectActiveSlot w reliableBus (slotWritten w (armed e record) dev) (promoted (armed e record)) =
      some ((e.activeSlotIndex + 1) % e.numSlots, e.activeCounter + 1, record) := by
  have hwfa : WellFormed (armed e record) := hwf
  have hn2 : 2 ≤ e.numSlots := hwf.2.2.2
  have ht : (armed e record).writeSlotIndex < (armed e record).numSlots :=
    Nat.mod_lt _ (by omega)
  have hnext : nextCounterOf e.activeCounter = e.activeCounter + 1 := by
    unfold nextCounterOf
    rw [Nat.mod_eq_of_lt hctr, if_neg (by omega)]
  have hc : (armed e record).nextCounter < 2 ^ 32 := by
    show nextCounterOf e.activeCounter < 2 ^ 32
    exact nextCounterOf_lt _
  have htarget := scanSlot_written_target w (armed e record) dev hw hwfa ht hlen hc
  rw [selectActiveSlot_congr w reliableBus _ (promoted (armed e record)) (armed e record)
    rfl rfl rfl]
  have hinv := selectActiveSlot_inv w reliableBus (slotWritten w (armed e record) dev)
    (armed e record)
  cases hsel : selectActiveSlot w reliableBus (slotWritten w (armed e record) dev)
      (armed e record) with
  | none =>
    rw [hsel] at hinv
    have := hinv _ ht
    rw [htarget] at this
    cases this
  | some b =>
    obtain ⟨i, c, r⟩ := b
    rw [hsel] at hinv
    obtain ⟨h1, h2, h3⟩ := hinv
    have hmax := h3 _ ht _ _ htarget
    by_cases hi : i = (armed e record).writeSlotIndex
    · rw [hi, htarget] at h2
      cases h2
      rw [hi]
      show some ((e.activeSlotIndex + 1) % e.numSlots, nextCounterOf e.activeCounter, record) = _
      rw [hnext]
    · exfalso
      rw [scanSlot_written_other w reliableBus (armed e record) dev hw hwfa ht i h1 hi,
        scanSlot_congr w reliableBus dev (armed e record) e i rfl rfl] at h2
      have hle := hsync i c r h1 h2
      have hcn : (armed e record).nextCounter = e.activeCounter + 1 := hnext
      rw [hcn] at hmax
      omega

/-- The outcome of the layout step does not depend on the previous layout fields, and
neither do the fields when the layout is accepted. -/
theorem beginLayout_indep (w userSize : Nat) (l0 : Layout) :
    (beginLayout w userSize l0).2 = layoutAccepted w userSize ∧
    ((beginLayout w userSize l0).2 = true →
      (beginLayout w userSize l0).1 = (beginLayout w userSize Layout.init).1) := by
  unfold layoutAccepted beginLayout
  simp only
  split_ifs <;> simp

theorem begin_true (w : Nat) (alloc : AllocOutcome) (bus : ReadBus) (dev : Device) (e : Engine)
    (h : (begin w alloc bus dev e).1 = true) :
    layoutAccepted w e.userSize = true ∧
    (begin w alloc bus dev e).2 =
      syncFromActive (pickActiveSlotOnInit w bus dev (beforeScan w e)) := by
  have hind := (beginLayout_indep w e.userSize
    { slotPages := e.slotPages, slotSize := e.slotSize, numSlots := e.numSlots }).1
  unfold begin at h ⊢
  simp only at h ⊢
  split_ifs at h ⊢ with h1 h2
  refine ⟨?_, rfl⟩
  rw [← hind]
  simpa using h1

theorem pickActiveSlotOnInit_layout (w : Nat) (bus : ReadBus) (dev : Device) (e : Engine) :
    (pickActiveSlotOnInit w bus dev e).userSize = e.userSize ∧
    (pickActiveSlotOnInit w bus dev e).slotPages = e.slotPages ∧
    (pickActiveSlotOnInit w bus dev e).slotSize = e.slotSize ∧
    (pickActiveSlotOnInit w bus dev e).numSlots = e.numSlots ∧
    (pickActiveSlotOnInit w bus dev e).state = e.state := by
  unfold pickActiveSlotOnInit
  split <;> exact ⟨rfl, rfl, rfl, rfl, rfl⟩

theorem beforeScan_layout (w : Nat) (e : Engine) (hacc : layoutAccepted w e.userSize = true) :
    (beforeScan w e).userSize = e.userSize ∧
    (beforeScan w e).slotPages = (beginLayout w e.userSize Layout.init).1.slotPages ∧
    (beforeScan w e).slotSize = (beginLayout w e.userSize Layout.init).1.slotSize ∧
    (beforeScan w e).numSlots = (beginLayout w e.userSize Layout.init).1.numSlots := by
  have hind := beginLayout_indep w e.userSize
    { slotPages := e.slotPages, slotSize := e.slotSize, numSlots := e.numSlots }
  have h2 := hind.2 (by rw [hind.1]; exact hacc)
  unfold beforeScan
  simp only
  rw [h2]
  simp

/-- After a successful `begin()` whose line 28 did not wrap, the layout fields describe
slots that hold record and footer, lie in the device and are at least two. -/
theorem begin_wellFormed (w : Nat) (alloc : AllocOutcome) (bus : ReadBus) (dev : Device)
    (e : Engine) (h : (begin w alloc bus dev e).1 = true) (hnw : e.userSize + 37 < 2 ^ w) :
    WellFormed (begin w alloc bus dev e).2 ∧ (begin w alloc bus dev e).2.state = WriteState.Idle ∧
      (begin w alloc bus dev e).2.userSize = e.userSize := by
  obtain ⟨hacc, heq⟩ := begin_true w alloc bus dev e h
  have hp := pickActiveSlotOnInit_layout w bus dev (beforeScan w e)
  have hb := beforeScan_layout w e hacc
  have hshape := accepted_shape w e.userSize hacc
  have hfit := accepted_fits_noWrap w e.userSize hnw hacc
  rw [heq]
  unfold WellFormed syncFromActive
  simp only
  rw [hp.2.1, hp.2.2.1, hp.2.2.2.1, hp.1, hp.2.2.2.2, hb.1, hb.2.1, hb.2.2.1, hb.2.2.2]
  obtain ⟨s1, s2, s3, s4, s5⟩ := hshape
  refine ⟨⟨s1, hfit, ?_, s5⟩, rfl, rfl⟩
  rw [s4]
  exact Nat.div_mul_le_self _ _

/-- The counter after `n` successful commits from counter 0, in closed form. -/
theorem nextCounterOf_iterate (n : Nat) :
    nextCounterOf^[n] 0 = if n = 0 then 0 else (n - 1) % 4294967295 + 1 := by
  induction n with
  | zero => rfl
  | succ n ih =>
    rw [Function.iterate_succ_apply', ih]
    unfold nextCounterOf
    have h32 : (2 : Nat) ^ 32 = 4294967296 := by norm_num
    rw [h32]
    by_cases hn : n = 0
    · subst hn
      decide
    · rw [if_neg hn, if_neg (Nat.succ_ne_zero n)]
      have e1 : n + 1 - 1 = n := rfl
      rw [e1]
      split <;> omega

/-- The active slot index after `n` successful commits from index `i`. -/
theorem slotIndex_iterate (numSlots i n : Nat) :
    (fun a => (a + 1) % numSlots)^[n] i = if n = 0 then i else (i + n) % numSlots := by
  induction n with
  | zero => rfl
  | succ n ih =>
    rw [Function.iterate_succ_apply', ih, if_neg (Nat.succ_ne_zero n)]
    by_cases hn : n = 0
    · subst hn
      rfl
    · rw [if_neg hn]
      show ((i + n) % numSlots + 1) % numSlots = (i + (n + 1)) % numSlots
      rw [Nat.add_mod, Nat.mod_mod, ← Nat.add_mod, Nat.add_assoc]

theorem commitMany_cons (w : Nat) (c : List WriteOutcome × List Byte)
    (cs : List (List WriteOutcome × List Byte)) (s : Engine × Device) :
    commitMany w (c :: cs) s = commitMany w cs (commitCycle w c.1 c.2 s) := rfl

/-- After a sequence of commits each driven to completion, the engine is idle, its
counter and active slot index are the iterates of the commit rule, and the layout is
unchanged. -/
theorem commitMany_fields (w : Nat) (cycles : List (List WriteOutcome × List Byte))
    (e : Engine) (dev : Device) (hidle : e.state = WriteState.Idle)
    (hok : ∀ c ∈ cycles, WriteOutcome.error ∉ c.1 ∧ writesNeeded e ≤ c.1.count WriteOutcome.ok) :
    (commitMany w cycles (e, dev)).1.state = WriteState.Idle ∧
    (commitMany w cycles (e, dev)).1.activeCounter = nextCounterOf^[cycles.length] e.activeCounter ∧
    (commitMany w cycles (e, dev)).1.activeSlotIndex =
      (fun a => (a + 1) % e.numSlots)^[cycles.length] e.activeSlotIndex ∧
    (commitMany w cycles (e, dev)).1.numSlots = e.numSlots ∧
    (commitMany w cycles (e, dev)).1.userSize = e.userSize := by
  induction cycles generalizing e dev with
  | nil => exact ⟨hidle, rfl, rfl, rfl, rfl⟩
  | cons c cs ih =>
    obtain ⟨hc1, hc2⟩ := hok c (List.mem_cons_self _ _)
    have hstep : commitCycle w c.1 c.2 (e, dev) =
        (promoted (armed e c.2), slotWritten w (armed e c.2) dev) := by
      rcases commitCycle_noError w e dev c.2 c.1 hidle hc1 with ⟨h, _⟩ | ⟨_, h⟩
      · omega
      · exact h
    rw [commitMany_cons, hstep]
    have hok2 : ∀ c2 ∈ cs, WriteOutcome.error ∉ c2.1 ∧
        writesNeeded (promoted (armed e c.2)) ≤ c2.1.count WriteOutcome.ok :=
      fun c2 hc => hok c2 (List.mem_cons_of_mem _ hc)
    obtain ⟨h1, h2, h3, h4, h5⟩ := ih (promoted (armed e c.2)) (slotWritten w (armed e c.2) dev)
      rfl hok2
    refine ⟨h1, ?_, ?_, h4, h5⟩
    · rw [h2, List.length_cons, Function.iterate_succ_apply]
      rfl
    · rw [h3, List.length_cons, Function.iterate_succ_apply]
      rfl

/-- The target slot of an accepted commit is the successor of the active slot, and with
at least two slots it differs from the active slot. -/
theorem commit_target (e : Engine) (record : List Byte) (hidle : e.state = WriteState.Idle) :
    (commit (setEdit e record)).2.writeSlotIndex = (e.activeSlotIndex + 1) % e.numSlots ∧
    (2 ≤ e.numSlots → e.activeSlotIndex < e.numSlots →
      (commit (setEdit e record)).2.writeSlotIndex ≠ e.activeSlotIndex) := by
  rw [commit_idle e record hidle]
  refine ⟨rfl, ?_⟩
  intro h2 hlt
  show (e.activeSlotIndex + 1) % e.numSlots ≠ e.activeSlotIndex
  by_cases hlast : e.activeSlotIndex + 1 = e.numSlots
  · rw [hlast, Nat.mod_self]
    omega
  · rw [Nat.mod_eq_of_lt (by omega)]
    omega

/-- What the scan leaves in the engine when no slot is valid. -/
theorem pickActiveSlotOnInit_blank (w : Nat) (bus : ReadBus) (dev : Device) (e : Engine)
    (h : ∀ j c r, j < e.numSlots → ¬ SlotValid w bus dev e j c r) :
    (pickActiveSlotOnInit w bus dev e).activeCounter = 0 ∧
    (pickActiveSlotOnInit w bus dev e).activeSlotIndex = e.numSlots - 1 ∧
    (pickActiveSlotOnInit w bus dev e).activeRam = List.replicate e.userSize ERASED := by
  have hinv := selectActiveSlot_inv w bus dev e
  unfold pickActiveSlotOnInit
  cases hsel : selectActiveSlot w bus dev e with
  | none => exact ⟨rfl, rfl, rfl⟩
  | some b =>
    obtain ⟨i, c, r⟩ := b
    rw [hsel] at hinv
    obtain ⟨h1, h2, _⟩ := hinv
    exact absurd ((scanSlot_eq_some_iff w bus dev e i c r).mp h2) (h i c r h1)

/-- After `N` commits each driven to completion from counter 0, no write is pending and
the counter is 0 for `N = 0` and `((N - 1) mod (2^32 - 1)) + 1` otherwise. -/
theorem commitMany_counter (w : Nat) (cycles : List (List WriteOutcome × List Byte))
    (e : Engine) (dev : Device) (hidle : e.state = WriteState.Idle)
    (hc0 : e.activeCounter = 0)
    (hok : ∀ c ∈ cycles, WriteOutcome.error ∉ c.1 ∧ writesNeeded e ≤ c.1.count WriteOutcome.ok) :
    isWritePending (commitMany w cycles (e, dev)).1 = false ∧
    getActiveCounter (commitMany w cycles (e, dev)).1 =
      if cycles.length = 0 then 0 else (cycles.length - 1) % 4294967295 + 1 := by
  obtain ⟨f1, f2, _, _, _⟩ := commitMany_fields w cycles e dev hidle hok
  rw [hc0, nextCounterOf_iterate] at f2
  exact ⟨(isWritePending_eq_false_iff _).mpr f1, f2⟩

/-! ### Where the records of a sequence of commits lie on the device -/

/-- One completed commit on the device: the target slot scans as valid with the new
counter and record, and every other slot scans as before. -/
theorem cycle_device (w : Nat) (e : Engine) (dev : Device) (record : List Byte)
    (hw : 13 ≤ w) (hwf : WellFormed e) (hlen : record.length = e.userSize) :
    scanSlot w reliableBus (slotWritten w (armed e record) dev) (promoted (armed e record))
        (promoted (armed e record)).activeSlotIndex =
      some ((promoted (armed e record)).activeCounter, (promoted (armed e record)).activeRam) ∧
    (∀ (bus : ReadBus) (j : Nat), j < e.numSlots → j ≠ (promoted (armed e record)).activeSlotIndex →
      scanSlot w bus (slotWritten w (armed e record) dev) (promoted (armed e record)) j =
        scanSlot w bus dev e j) := by
  have hwfa : WellFormed (armed e record) := hwf
  have hn2 : 2 ≤ e.numSlots := hwf.2.2.2
  have ht : (armed e record).writeSlotIndex < (armed e record).numSlots :=
    Nat.mod_lt _ (by omega)
  have hc : (armed e record).nextCounter < 2 ^ 32 := nextCounterOf_lt _
  constructor
  · rw [scanSlot_congr w reliableBus _ (promoted (armed e record)) (armed e record) _ rfl rfl]
    exact scanSlot_written_target w (armed e record) dev hw hwfa ht hlen hc
  · intro bus j hj hne
    rw [scanSlot_congr w bus _ (promoted (armed e record)) (armed e record) j rfl rfl,
      scanSlot_written_other w bus (armed e record) dev hw hwfa ht j hj hne]
    exact scanSlot_congr w bus dev (armed e record) e j rfl rfl

theorem commitCycle_complete (w : Nat) (e : Engine) (dev : Device)
    (c : List WriteOutcome × List Byte) (hidle : e.state = WriteState.Idle)
    (hc : WriteOutcome.error ∉ c.1 ∧ writesNeeded e ≤ c.1.count WriteOutcome.ok) :
    commitCycle w c.1 c.2 (e, dev) =
      (promoted (armed e c.2), slotWritten w (armed e c.2) dev) := by
  rcases commitCycle_noError w e dev c.2 c.1 hidle hc.1 with ⟨h, _⟩ | ⟨_, h⟩
  · have := hc.2
    omega
  · exact h

/-- After a non-empty sequence of completed commits the engine keeps its layout, and the
slot of the device at the engine's active slot index is valid and holds the engine's
active counter and active record. -/
theorem commitMany_device (w : Nat) (cycles : List (List WriteOutcome × List Byte))
    (hw : 13 ≤ w) :
    ∀ (e : Engine) (dev : Device), WellFormed e → e.state = WriteState.Idle →
    (∀ c ∈ cycles, WriteOutcome.error ∉ c.1 ∧ writesNeeded e ≤ c.1.count WriteOutcome.ok) →
    (∀ c ∈ cycles, c.2.length = e.userSize) →
    WellFormed (commitMany w cycles (e, dev)).1 ∧
    (commitMany w cycles (e, dev)).1.slotSize = e.slotSize ∧
    (cycles ≠ [] →
      scanSlot w reliableBus (commitMany w cycles (e, dev)).2 (commitMany w cycles (e, dev)).1
          (commitMany w cycles (e, dev)).1.activeSlotIndex =
        some ((commitMany w cycles (e, dev)).1.activeCounter,
          (commitMany w cycles (e, dev)).1.activeRam)) := by
  induction cycles with
  | nil =>
    intro e dev hwf _ _ _
    exact ⟨hwf, rfl, fun h => absurd rfl h⟩
  | cons c cs ih =>
    intro e dev hwf hidle hok hlen
    have hstep := commitCycle_complete w e dev c hidle (hok c (List.mem_cons_self _ _))
    have hl := hlen c (List.mem_cons_self _ _)
    have hdev := (cycle_device w e dev c.2 hw hwf hl).1
    rw [commitMany_cons, hstep]
    have hwf2 : WellFormed (promoted (armed e c.2)) := hwf
    obtain ⟨i1, i2, i3⟩ := ih (promoted (armed e c.2)) (slotWritten w (armed e c.2) dev) hwf2 rfl
      (fun c2 h2 => hok c2 (List.mem_cons_of_mem _ h2))
      (fun c2 h2 => hlen c2 (List.mem_cons_of_mem _ h2))
    refine ⟨i1, i2, ?_⟩
    intro _
    by_cases hcs : cs = []
    · subst hcs
      exact hdev
    · exact i3 hcs

/-- After a non-empty sequence of completed commits that starts in sync with the device
and does not reach the counter `2^32 - 1`, the engine is in sync with the device and the
scan selects the engine's active slot index, counter and record. -/
theorem commitMany_select (w : Nat) (cycles : List (List WriteOutcome × List Byte))
    (hw : 13 ≤ w) :
    ∀ (e : Engine) (dev : Device), WellFormed e → e.state = WriteState.Idle →
    (∀ c ∈ cycles, WriteOutcome.error ∉ c.1 ∧ writesNeeded e ≤ c.1.count WriteOutcome.ok) →
    (∀ c ∈ cycles, c.2.length = e.userSize) →
    (∀ j c r, j < e.numSlots → scanSlot w reliableBus dev e j = some (c, r) →
      c ≤ e.activeCounter) →
    e.activeCounter + cycles.length < 2 ^ 32 →
    cycles ≠ [] →
      selectActiveSlot w reliableBus (commitMany w cycles (e, dev)).2
          (commitMany w cycles (e, dev)).1 =
        some ((commitMany w cycles (e, dev)).1.activeSlotIndex,
          (commitMany w cycles (e, dev)).1.activeCounter,
          (commitMany w cycles (e, dev)).1.activeRam) := by
  induction cycles with
  | nil =>
    intro e dev _ _ _ _ _ _ hne
    exact absurd rfl hne
  | cons c cs ih =>
    intro e dev hwf hidle hok hlen hsync hctr _
    have hstep := commitCycle_complete w e dev c hidle (hok c (List.mem_cons_self _ _))
    have hl := hlen c (List.mem_cons_self _ _)
    rw [List.length_cons] at hctr
    have hctr1 : e.activeCounter + 1 < 2 ^ 32 := by omega
    have hnext : nextCounterOf e.activeCounter = e.activeCounter + 1 := by
      unfold nextCounterOf
      rw [Nat.mod_eq_of_lt hctr1, if_neg (by omega)]
    have hsel := select_after_commit w e dev c.2 hw hwf hl hsync hctr1
    obtain ⟨hd1, hd2⟩ := cycle_device w e dev c.2 hw hwf hl
    rw [commitMany_cons, hstep]
    by_cases hcs : cs = []
    · subst hcs
      show selectActiveSlot w reliableBus (slotWritten w (armed e c.2) dev)
        (promoted (armed e c.2)) = some ((e.activeSlotIndex + 1) % e.numSlots,
          nextCounterOf e.activeCounter, c.2)
      rw [hsel, hnext]
    · have hwf2 : WellFormed (promoted (armed e c.2)) := hwf
      have hsync2 : ∀ j c2 r, j < (promoted (armed e c.2)).numSlots →
          scanSlot w reliableBus (slotWritten w (armed e c.2) dev) (promoted (armed e c.2)) j =
            some (c2, r) → c2 ≤ (promoted (armed e c.2)).activeCounter := by
        intro j c2 r hj hv
        have hac : (promoted (armed e c.2)).activeCounter = e.activeCounter + 1 := hnext
        by_cases hjt : j = (promoted (armed e c.2)).activeSlotIndex
        · rw [hjt, hd1] at hv
          cases hv
          exact le_refl _
        · rw [hd2 reliableBus j hj hjt] at hv
          have := hsync j c2 r hj hv
          omega
      have hctr2 : (promoted (armed e c.2)).activeCounter + cs.length < 2 ^ 32 := by
        have hac : (promoted (armed e c.2)).activeCounter = e.activeCounter + 1 := hnext
        omega
      exact ih (promoted (armed e c.2)) (slotWritten w (armed e c.2) dev) hwf2 rfl
        (fun c2 h2 => hok c2 (List.mem_cons_of_mem _ h2))
        (fun c2 h2 => hlen c2 (List.mem_cons_of_mem _ h2)) hsync2 hctr2 hcs

/-- A device on which `scanSlot` finds no slot has no valid slot. -/
theorem noValid_of_scanSlot (w : Nat) (bus : ReadBus) (dev : Device) (e : Engine)
    (h : ∀ j, j < e.numSlots → scanSlot w bus dev e j = none) :
    ∀ j c r, j < e.numSlots → ¬ SlotValid w bus dev e j c r := by
  intro j c r hj hv
  have := (scanSlot_eq_some_iff w bus dev e j c r).mpr hv
  rw [h j hj] at this
  cases this

/-- After a non-empty sequence of completed commits the active buffer is the record of
the last commit. -/
theorem commitMany_activeRam (w : Nat) (cycles : List (List WriteOutcome × List Byte)) :
    ∀ (e : Engine) (dev : Device), e.state = WriteState.Idle →
    (∀ c ∈ cycles, WriteOutcome.error ∉ c.1 ∧ writesNeeded e ≤ c.1.count WriteOutcome.ok) →
    ∀ last, cycles.getLast? = some last →
      (commitMany w cycles (e, dev)).1.activeRam = last.2 := by
  induction cycles with
  | nil =>
    intro e dev _ _ last h
    cases h
  | cons c cs ih =>
    intro e dev hidle hok last hlast
    have hstep := commitCycle_complete w e dev c hidle (hok c (List.mem_cons_self _ _))
    rw [commitMany_cons, hstep]
    cases cs with
    | nil =>
      have : last = c := by
        simp at hlast
        exact hlast.symm
      rw [this]
      rfl
    | cons d ds =>
      have hlast2 : (d :: ds).getLast? = some last := by
        rw [List.getLast?_cons_cons] at hlast
        exact hlast
      exact ih (promoted (armed e c.2)) (slotWritten w (armed e c.2) dev) rfl
        (fun c2 h2 => hok c2 (List.mem_cons_of_mem _ h2)) last hlast2

/-! ## Sequences of commits: claim C9 -/

/-- C9 (as amended): let the engine have a well-formed layout, no write pending, active
counter 0 and active slot index `numSlots - 1`, on a device without valid slot (the
state a scan leaves on a blank device), and run `N` commits of `userSize`-byte records,
each driven to completion (its `task()` calls meet no channel error and include the
`writesNeeded` successful page writes). Then no write is pending; `getActiveCounter()`
is `N` as long as `N < 2^32`, and in general `((N - 1) mod (2^32 - 1)) + 1` for
`N ≥ 1`; for `N ≥ 1` the active buffer is the record of the last commit, the engine's
active slot index is `(N - 1) mod numSlots`, and on the device slot
`(N - 1) mod numSlots` is valid and holds the active counter and the active record;
for `1 ≤ N < 2^32` the slot scan of the device selects that slot, counter and record.
A further commit targets slot `(activeSlotIndex + 1) mod numSlots`, which is another
slot; driven to completion it changes no byte of the device outside that slot, and the
slot that held the active record before is still valid with the same counter and
record. -/
theorem c9_monotonic_round_robin (w : Nat) (e : Engine) (dev : Device)
    (cycles : List (List WriteOutcome × List Byte)) (next : List WriteOutcome × List Byte)
    (hw : 13 ≤ w) (hwf : WellFormed e) (hidle : isWritePending e = false)
    (hc0 : getActiveCounter e = 0) (hs0 : e.activeSlotIndex = e.numSlots - 1)
    (hblank : ∀ j c r, j < e.numSlots → ¬ SlotValid w reliableBus dev e j c r)
    (hok : ∀ c ∈ cycles, WriteOutcome.error ∉ c.1 ∧
      writesNeeded e ≤ c.1.count WriteOutcome.ok ∧ c.2.length = e.userSize)
    (hnext : WriteOutcome.error ∉ next.1 ∧
      writesNeeded e ≤ next.1.count WriteOutcome.ok ∧ next.2.length = e.userSize) :
    isWritePending (commitMany w cycles (e, dev)).1 = false ∧
    (cycles.length < 2 ^ 32 → getActiveCounter (commitMany w cycles (e, dev)).1 = cycles.length) ∧
    (1 ≤ cycles.length →
      getActiveCounter (commitMany w cycles (e, dev)).1 =
        (cycles.length - 1) % (2 ^ 32 - 1) + 1) ∧
    (1 ≤ cycles.length →
      (commitMany w cycles (e, dev)).1.activeSlotIndex = (cycles.length - 1) % e.numSlots) ∧
    (∀ last, cycles.getLast? = some last →
      activeBuffer (commitMany w cycles (e, dev)).1 = last.2) ∧
    (1 ≤ cycles.length →
      SlotValid w reliableBus (commitMany w cycles (e, dev)).2 (commitMany w cycles (e, dev)).1
        ((cycles.length - 1) % e.numSlots)
        (getActiveCounter (commitMany w cycles (e, dev)).1)
        (activeBuffer (commitMany w cycles (e, dev)).1)) ∧
    (1 ≤ cycles.length → cycles.length < 2 ^ 32 →
      selectActiveSlot w reliableBus (commitMany w cycles (e, dev)).2
          (commitMany w cycles (e, dev)).1 =
        some ((cycles.length - 1) % e.numSlots, cycles.length,
          activeBuffer (commitMany w cycles (e, dev)).1)) ∧
    (commit (setEdit (commitMany w cycles (e, dev)).1 next.2)).2.writeSlotIndex =
      ((commitMany w cycles (e, dev)).1.activeSlotIndex + 1) % e.numSlots ∧
    (commit (setEdit (commitMany w cycles (e, dev)).1 next.2)).2.writeSlotIndex ≠
      (commitMany w cycles (e, dev)).1.activeSlotIndex ∧
    (∀ a,
      (a < (((commitMany w cycles (e, dev)).1.activeSlotIndex + 1) % e.numSlots) * e.slotSize ∨
        (((commitMany w cycles (e, dev)).1.activeSlotIndex + 1) % e.numSlots) * e.slotSize +
          e.slotSize ≤ a) →
      (commitCycle w next.1 next.2 (commitMany w cycles (e, dev))).2 a =
        (commitMany w cycles (e, dev)).2 a) ∧
    (1 ≤ cycles.length →
      SlotValid w reliableBus (commitCycle w next.1 next.2 (commitMany w cycles (e, dev))).2
        (commitCycle w next.1 next.2 (commitMany w cycles (e, dev))).1
        ((cycles.length - 1) % e.numSlots)
        (getActiveCounter (commitMany w cycles (e, dev)).1)
        (activeBuffer (commitMany w cycles (e, dev)).1)) := by
  have hst := (isWritePending_eq_false_iff e).mp hidle
  have h2 : 2 ≤ e.numSlots := hwf.2.2.2
  have hok1 : ∀ c ∈ cycles, WriteOutcome.error ∉ c.1 ∧
      writesNeeded e ≤ c.1.count WriteOutcome.ok := fun c hc => ⟨(hok c hc).1, (hok c hc).2.1⟩
  have hlen : ∀ c ∈ cycles, c.2.length = e.userSize := fun c hc => (hok c hc).2.2
  obtain ⟨f1, f2, f3, f4, f5⟩ := commitMany_fields w cycles e dev hst hok1
  obtain ⟨d1, d2, d3⟩ := commitMany_device w cycles hw e dev hwf hst hok1 hlen
  have hram := commitMany_activeRam w cycles e dev hst hok1
  unfold getActiveCounter at hc0
  unfold getActiveCounter activeBuffer
  have hsync : ∀ j c r, j < e.numSlots → scanSlot w reliableBus dev e j = some (c, r) →
      c ≤ e.activeCounter := by
    intro j c r hj hv
    exact absurd ((scanSlot_eq_some_iff w reliableBus dev e j c r).mp hv) (hblank j c r hj)
  rw [hc0, nextCounterOf_iterate] at f2
  rw [hs0, slotIndex_iterate] at f3
  have h32 : (2 : Nat) ^ 32 = 4294967296 := by norm_num
  have hctrN : cycles.length < 2 ^ 32 →
      (commitMany w cycles (e, dev)).1.activeCounter = cycles.length := by
    intro hlt
    rw [f2]
    rw [h32] at hlt
    split <;> omega
  have hidxN : 1 ≤ cycles.length →
      (commitMany w cycles (e, dev)).1.activeSlotIndex = (cycles.length - 1) % e.numSlots := by
    intro hpos
    rw [f3, if_neg (by omega)]
    have e1 : e.numSlots - 1 + cycles.length = e.numSlots + (cycles.length - 1) := by omega
    rw [e1, Nat.add_mod_left]
  have hidx : (commitMany w cycles (e, dev)).1.activeSlotIndex < e.numSlots := by
    rw [f3]
    split
    · omega
    · exact Nat.mod_lt _ (by omega)
  have hne : cycles.length ≥ 1 → cycles ≠ [] := by
    intro hpos hnil
    rw [hnil] at hpos
    simp at hpos
  have hslot : 1 ≤ cycles.length →
      scanSlot w reliableBus (commitMany w cycles (e, dev)).2 (commitMany w cycles (e, dev)).1
          ((cycles.length - 1) % e.numSlots) =
        some ((commitMany w cycles (e, dev)).1.activeCounter,
          (commitMany w cycles (e, dev)).1.activeRam) := by
    intro hpos
    rw [← hidxN hpos]
    exact d3 (hne hpos)
  have ht := commit_target (commitMany w cycles (e, dev)).1 next.2 f1
  rw [f4] at ht
  have htne := ht.2 h2 hidx
  have hneed : writesNeeded (commitMany w cycles (e, dev)).1 = writesNeeded e := by
    unfold writesNeeded dataPages
    rw [f5]
  have hnextStep := commitCycle_complete w (commitMany w cycles (e, dev)).1
    (commitMany w cycles (e, dev)).2 next f1 ⟨hnext.1, by rw [hneed]; exact hnext.2.1⟩
  have hnlen : next.2.length = (commitMany w cycles (e, dev)).1.userSize := by
    rw [f5]; exact hnext.2.2
  have hcd := cycle_device w (commitMany w cycles (e, dev)).1 (commitMany w cycles (e, dev)).2
    next.2 hw d1 hnlen
  have htidx : (promoted (armed (commitMany w cycles (e, dev)).1 next.2)).activeSlotIndex =
      ((commitMany w cycles (e, dev)).1.activeSlotIndex + 1) % e.numSlots := by
    show ((commitMany w cycles (e, dev)).1.activeSlotIndex + 1) %
      (commitMany w cycles (e, dev)).1.numSlots = _
    rw [f4]
  have htlt : ((commitMany w cycles (e, dev)).1.activeSlotIndex + 1) % e.numSlots < e.numSlots :=
    Nat.mod_lt _ (by omega)
  refine ⟨(isWritePending_eq_false_iff _).mpr f1, hctrN, ?_, hidxN, hram, ?_, ?_, ht.1, htne,
    ?_, ?_⟩
  · intro hpos
    rw [f2, if_neg (by omega), h32]
  · intro hpos
    exact (scanSlot_eq_some_iff _ _ _ _ _ _ _).mp (hslot hpos)
  · intro hpos hlt
    have hsel := commitMany_select w cycles hw e dev hwf hst hok1 hlen hsync
      (by rw [hc0, Nat.zero_add]; exact hlt) (hne hpos)
    rw [hsel, hidxN hpos, hctrN hlt]
  · intro a ha
    have hwfa : WellFormed (armed (commitMany w cycles (e, dev)).1 next.2) := d1
    have hbase : slotBaseAddress w (armed (commitMany w cycles (e, dev)).1 next.2)
        (armed (commitMany w cycles (e, dev)).1 next.2).writeSlotIndex =
        (((commitMany w cycles (e, dev)).1.activeSlotIndex + 1) % e.numSlots) * e.slotSize := by
      have hlt : (armed (commitMany w cycles (e, dev)).1 next.2).writeSlotIndex <
          (armed (commitMany w cycles (e, dev)).1 next.2).numSlots := by
        show ((commitMany w cycles (e, dev)).1.activeSlotIndex + 1) %
          (commitMany w cycles (e, dev)).1.numSlots < (commitMany w cycles (e, dev)).1.numSlots
        exact Nat.mod_lt _ (by rw [f4]; omega)
      refine (slotBaseAddress_eq w (armed (commitMany w cycles (e, dev)).1 next.2) hw hwfa
        (armed (commitMany w cycles (e, dev)).1 next.2).writeSlotIndex hlt).trans ?_
      show ((commitMany w cycles (e, dev)).1.activeSlotIndex + 1) %
        (commitMany w cycles (e, dev)).1.numSlots * (commitMany w cycles (e, dev)).1.slotSize = _
      rw [f4, d2]
    rw [hnextStep]
    apply slotWritten_outside w _ _ hwfa
    rw [hbase]
    show _ ∨ _ + (commitMany w cycles (e, dev)).1.slotSize ≤ a
    rw [d2]
    exact ha
  · intro hpos
    apply (scanSlot_eq_some_iff _ _ _ _ _ _ _).mp
    rw [hnextStep]
    have hj : (cycles.length - 1) % e.numSlots < (commitMany w cycles (e, dev)).1.numSlots := by
      rw [f4]
      exact Nat.mod_lt _ (by omega)
    have hjne : (cycles.length - 1) % e.numSlots ≠
        (promoted (armed (commitMany w cycles (e, dev)).1 next.2)).activeSlotIndex := by
      rw [htidx, ← hidxN hpos]
      exact fun h => htne (by rw [ht.1]; exact h.symm)
    rw [hcd.2 reliableBus _ hj hjne]
    exact hslot hpos

set_option maxRecDepth 1000000 in
/-- C9, witness: two commits (`[0x07]`, then `[0x08]`) on an engine started on a blank
device (128 slots of 32 bytes): the counter is 2, the active slot index is 1, slot 1 of
the device is valid with counter 2 and record `[0x08]` and the scan selects it; a third
commit targets another slot and leaves slot 1 valid with counter 2 and record `[0x08]`. -/
theorem c9_monotonic_round_robin_witness :
    WellFormed blankEngine ∧ isWritePending blankEngine = false ∧
    getActiveCounter blankEngine = 0 ∧ blankEngine.activeSlotIndex = blankEngine.numSlots - 1 ∧
    (∀ j c r, j < blankEngine.numSlots →
      ¬ SlotValid 16 reliableBus blankDevice blankEngine j c r) ∧
    isWritePending (commitMany 16 twoCycles (blankEngine, blankDevice)).1 = false ∧
    getActiveCounter (commitMany 16 twoCycles (blankEngine, blankDevice)).1 = 2 ∧
    (commitMany 16 twoCycles (blankEngine, blankDevice)).1.activeSlotIndex = 1 % 128 ∧
    activeBuffer (commitMany 16 twoCycles (blankEngine, blankDevice)).1 = [8] ∧
    SlotValid 16 reliableBus (commitMany 16 twoCycles (blankEngine, blankDevice)).2
      (commitMany 16 twoCycles (blankEngine, blankDevice)).1 ((2 - 1) % 128)
      (getActiveCounter (commitMany 16 twoCycles (blankEngine, blankDevice)).1)
      (activeBuffer (commitMany 16 twoCycles (blankEngine, blankDevice)).1) ∧
    selectActiveSlot 16 reliableBus (commitMany 16 twoCycles (blankEngine, blankDevice)).2
        (commitMany 16 twoCycles (blankEngine, blankDevice)).1 =
      some ((2 - 1) % 128, 2, activeBuffer (commitMany 16 twoCycles (blankEngine, blankDevice)).1) ∧
    (commit (setEdit (commitMany 16 twoCycles (blankEngine, blankDevice)).1
        thirdCycle.2)).2.writeSlotIndex ≠
      (commitMany 16 twoCycles (blankEngine, blankDevice)).1.activeSlotIndex ∧
    SlotValid 16 reliableBus
      (commitCycle 16 thirdCycle.1 thirdCycle.2
        (commitMany 16 twoCycles (blankEngine, blankDevice))).2
      (commitCycle 16 thirdCycle.1 thirdCycle.2
        (commitMany 16 twoCycles (blankEngine, blankDevice))).1 ((2 - 1) % 128)
      (getActiveCounter (commitMany 16 twoCycles (blankEngine, blankDevice)).1)
      (activeBuffer (commitMany 16 twoCycles (blankEngine, blankDevice)).1) :=
  have hwf : WellFormed blankEngine :=
    (begin_wellFormed 16 allocAll reliableBus blankDevice (construct 1) (by decide) (by decide)).1
  have hblank : ∀ j c r, j < blankEngine.numSlots →
      ¬ SlotValid 16 reliableBus blankDevice blankEngine j c r :=
    noValid_of_scanSlot 16 reliableBus blankDevice blankEngine (by decide)
  have h := c9_monotonic_round_robin 16 blankEngine blankDevice twoCycles thirdCycle
    (by decide) hwf (by decide) (by decide) (by decide) hblank (by decide) (by decide)
  ⟨hwf, by decide, by decide, by decide, hblank, h.1, h.2.1 (by decide), h.2.2.2.1 (by decide),
    h.2.2.2.2.1 _ rfl, h.2.2.2.2.2.1 (by decide), h.2.2.2.2.2.2.1 (by decide) (by decide),
    h.2.2.2.2.2.2.2.2.1, h.2.2.2.2.2.2.2.2.2.2 (by decide)⟩

set_option maxRecDepth 1000000 in
/-- C9, counterexample: after `2^32` commits on an engine started on a blank device,
each completed by two successful page writes, no write is pending and
`getActiveCounter()` is 1, which is not congruent to `2^32` modulo `2^32`. -/
theorem c9_monotonic_round_robin_counterexample :
    getActiveCounter blankEngine = 0 ∧
    isWritePending
      (commitMany 16 (List.replicate (2 ^ 32) plainCycle) (blankEngine, blankDevice)).1 = false ∧
    getActiveCounter
      (commitMany 16 (List.replicate (2 ^ 32) plainCycle) (blankEngine, blankDevice)).1 = 1 ∧
    ¬ (1 % 2 ^ 32 = (List.replicate (2 ^ 32) plainCycle).length % 2 ^ 32) := by
  have hst : blankEngine.state = WriteState.Idle := by decide
  have hc0 : blankEngine.activeCounter = 0 := by decide
  have hneed : writesNeeded blankEngine ≤ plainCycle.1.count WriteOutcome.ok := by decide
  have hno : WriteOutcome.error ∉ plainCycle.1 := by decide
  have hok : ∀ c ∈ List.replicate (2 ^ 32) plainCycle,
      WriteOutcome.error ∉ c.1 ∧ writesNeeded blankEngine ≤ c.1.count WriteOutcome.ok := by
    intro c hc
    rw [List.eq_of_mem_replicate hc]
    exact ⟨hno, hneed⟩
  have h := commitMany_counter 16 (List.replicate (2 ^ 32) plainCycle) blankEngine blankDevice
    hst hc0 hok
  rw [List.length_replicate] at h
  have hone : (if 2 ^ 32 = 0 then 0 else (2 ^ 32 - 1) % 4294967295 + 1) = 1 := by decide
  have hlen : ¬ (1 % 2 ^ 32 = (List.replicate (2 ^ 32) plainCycle).length % 2 ^ 32) := by
    rw [List.length_replicate]
    decide
  exact ⟨by decide, h.1, h.2.trans hone, hlen⟩

/-! ## Corruption of a stored record: claim C10 -/

theorem deviceBytes_flip (dev : Device) (base n k b : Nat) :
    deviceBytes (flipDeviceBit dev (base + k) b) base n =
      flipBitAt (deviceBytes dev base n) k b := by
  unfold deviceBytes flipBitAt flipDeviceBit
  apply List.ext_getElem
  · simp
  · intro m h1 h2
    rw [List.getElem_modify]
    simp only [List.getElem_map, List.getElem_range]
    by_cases hm : k = m
    · subst hm
      simp
    · have : ¬ (base + m = base + k) := by omega
      rw [if_neg this, if_neg hm]

theorem deviceBytes_length (dev : Device) (base n : Nat) : (deviceBytes dev base n).length = n := by
  unfold deviceBytes
  simp

/-- A slot that validates stops validating when one bit of its stored record flips. -/
theorem validate_flip (w : Nat) (bus : ReadBus) (dev : Device) (e : Engine)
    (slot crc k b : Nat) (hk : k < e.userSize) (hb : b < 8)
    (hv : validateSlotByReading w bus dev e slot crc = true) :
    validateSlotByReading w bus (flipDeviceBit dev (slotBaseAddress w e slot + k) b) e slot crc =
      false := by
  unfold validateSlotByReading readSlotData eepromReadBytes readRange at hv ⊢
  split_ifs at hv ⊢ with h1 h2
  · simp only [decide_eq_true_eq] at hv
    simp only [decide_eq_false_iff_not]
    rw [deviceBytes_flip dev _ _ k b, ← hv]
    exact crc16_ccitt_flip _ _ k b (by rw [deviceBytes_length]; exact hk) hb

/-- C10: for every byte sequence, every seed, every position `i` below the length and
every bit position `b < 8`, flipping bit `b` of byte `i` changes `crc16_ccitt`; hence a
slot that validates against its stored CRC no longer validates after any single-bit
flip in its stored record. -/
theorem c10_single_bit_flip_detected :
    (∀ (data : List Byte) (seed i b : Nat), i < data.length → b < 8 →
      crc16_ccitt (flipBitAt data i b) seed ≠ crc16_ccitt data seed) ∧
    (∀ (w : Nat) (bus : ReadBus) (dev : Device) (e : Engine) (slot crc k b : Nat),
      k < e.userSize → b < 8 → validateSlotByReading w bus dev e slot crc = true →
      validateSlotByReading w bus (flipDeviceBit dev (slotBaseAddress w e slot + k) b) e slot crc =
        false) :=
  ⟨crc16_ccitt_flip, validate_flip⟩

set_option maxRecDepth 1000000 in
/-- C10, witness: flipping bit 3 of byte 4 of the check string changes its CRC, and slot 0
of a device holding one committed record stops validating when bit 5 of its record byte
flips. -/
theorem c10_single_bit_flip_detected_witness :
    crc16_ccitt (flipBitAt checkString 4 3) CRC_SEED ≠ crc16_ccitt checkString CRC_SEED ∧
    validateSlotByReading 16 reliableBus oneRecordDevice blankEngine 0
      (crc16_ccitt [7] CRC_SEED) = true ∧
    validateSlotByReading 16 reliableBus
      (flipDeviceBit oneRecordDevice (slotBaseAddress 16 blankEngine 0 + 0) 5) blankEngine 0
      (crc16_ccitt [7] CRC_SEED) = false :=
  ⟨c10_single_bit_flip_detected.1 checkString CRC_SEED 4 3 (by decide) (by decide),
    by decide,
    c10_single_bit_flip_detected.2 16 reliableBus oneRecordDevice blankEngine 0
      (crc16_ccitt [7] CRC_SEED) 0 5 (by decide) (by decide) (by decide)⟩

/-! ## `begin()` and `initFromEeprom()`: return values and buffers -/

/-- The return value of `begin()`: `true` exactly when the layout is accepted and the
three allocations succeed. -/
theorem begin_fst (w : Nat) (alloc : AllocOutcome) (bus : ReadBus) (dev : Device) (e : Engine) :
    (begin w alloc bus dev e).1 =
      (layoutAccepted w e.userSize && (alloc.active && alloc.edit && alloc.write)) := by
  have hind := (beginLayout_indep w e.userSize
    { slotPages := e.slotPages, slotSize := e.slotSize, numSlots := e.numSlots }).1
  unfold begin
  simp only
  rw [hind]
  cases layoutAccepted w e.userSize <;> cases alloc.active <;> cases alloc.edit <;>
    cases alloc.write <;> simp

theorem initFromEeprom_fst (w : Nat) (bus : ReadBus) (dev : Device) (e : Engine) :
    (initFromEeprom w bus dev e).1 = true := by
  unfold initFromEeprom
  simp only
  split <;> rfl

theorem memcpy_full (dst src : List Byte) (n : Nat) (hs : src.length = n) (hd : dst.length ≤ n) :
    memcpy dst src n = src := by
  unfold memcpy
  rw [List.take_of_length_le (by omega), List.drop_of_length_le hd, List.append_nil]

/-- The scan leaves `userSize` bytes in the active buffer, whatever it finds. -/
theorem pickActiveSlotOnInit_activeRam_length (w : Nat) (bus : ReadBus) (dev : Device)
    (e : Engine) : (pickActiveSlotOnInit w bus dev e).activeRam.length = e.userSize := by
  have hinv := selectActiveSlot_inv w bus dev e
  unfold pickActiveSlotOnInit
  cases hsel : selectActiveSlot w bus dev e with
  | none => simp
  | some b =>
    obtain ⟨i, c, r⟩ := b
    rw [hsel] at hinv
    obtain ⟨_, h2, _⟩ := hinv
    obtain ⟨crc, _, hd, _⟩ := (scanSlot_eq_some_iff w bus dev e i c r).mp h2
    unfold readSlotData eepromReadBytes readRange at hd
    split_ifs at hd
    cases hd
    exact deviceBytes_length dev _ _

theorem pickActiveSlotOnInit_others (w : Nat) (bus : ReadBus) (dev : Device) (e : Engine) :
    (pickActiveSlotOnInit w bus dev e).editRam = e.editRam ∧
    (pickActiveSlotOnInit w bus dev e).writeRam = e.writeRam ∧
    (pickActiveSlotOnInit w bus dev e).activeAlloc = e.activeAlloc ∧
    (pickActiveSlotOnInit w bus dev e).editAlloc = e.editAlloc ∧
    (pickActiveSlotOnInit w bus dev e).writeAlloc = e.writeAlloc := by
  unfold pickActiveSlotOnInit
  split <;> simp

/-- After the copy of lines 47 and 54 the edit buffer is the active buffer, when the
active buffer holds `userSize` bytes and the edit buffer no more. -/
theorem syncFromActive_edit (e : Engine) (ha : e.activeRam.length = e.userSize)
    (he : e.editRam.length ≤ e.userSize) :
    (syncFromActive e).editRam = (syncFromActive e).activeRam := by
  unfold syncFromActive
  exact memcpy_full _ _ _ ha he

/-- What the scan loads into the active buffer depends on the engine only through the
record size and the layout, not on the buffers. -/
theorem pickActiveSlotOnInit_activeRam_congr (w : Nat) (bus : ReadBus) (dev : Device)
    (e1 e2 : Engine) (hu : e1.userSize = e2.userSize) (hs : e1.slotSize = e2.slotSize)
    (hn : e1.numSlots = e2.numSlots) :
    (pickActiveSlotOnInit w bus dev e1).activeRam = (pickActiveSlotOnInit w bus dev e2).activeRam := by
  unfold pickActiveSlotOnInit
  rw [selectActiveSlot_congr w bus dev e1 e2 hu hs hn]
  cases selectActiveSlot w bus dev e2 with
  | none => simp only [hu]
  | some b => rfl

/-- The copy of lines 47 and 54 leaves the active buffer as it was and makes the edit
buffer a copy of it. -/
theorem syncFromActive_bufs (e : Engine) (ha : e.activeRam.length = e.userSize)
    (he : e.editRam.length ≤ e.userSize) :
    (syncFromActive e).activeRam = e.activeRam ∧ (syncFromActive e).editRam = e.activeRam := by
  refine ⟨rfl, ?_⟩
  unfold syncFromActive
  exact memcpy_full _ _ _ ha he

/-- After a successful `begin()` active and edit buffer hold what the scan loaded. -/
theorem begin_bufs (w : Nat) (alloc : AllocOutcome) (bus : ReadBus) (dev : Device) (e : Engine)
    (h : (begin w alloc bus dev e).1 = true) :
    (begin w alloc bus dev e).2.activeRam =
      (pickActiveSlotOnInit w bus dev (beforeScan w e)).activeRam ∧
    (begin w alloc bus dev e).2.editRam =
      (pickActiveSlotOnInit w bus dev (beforeScan w e)).activeRam ∧
    (pickActiveSlotOnInit w bus dev (beforeScan w e)).activeRam.length = e.userSize := by
  obtain ⟨_, heq⟩ := begin_true w alloc bus dev e h
  have hlen := pickActiveSlotOnInit_activeRam_length w bus dev (beforeScan w e)
  have hoth := (pickActiveSlotOnInit_others w bus dev (beforeScan w e)).1
  have hu := (pickActiveSlotOnInit_layout w bus dev (beforeScan w e)).1
  have hbu : (beforeScan w e).userSize = e.userSize := rfl
  have hbe : (beforeScan w e).editRam.length = e.userSize := by
    show (List.replicate e.userSize ERASED).length = e.userSize
    simp
  have hb := syncFromActive_bufs (pickActiveSlotOnInit w bus dev (beforeScan w e))
    (by rw [hlen, hu]) (by rw [hoth, hu, hbe, hbu])
  rw [heq]
  exact ⟨hb.1, hb.2, by rw [hlen, hbu]⟩

/-- After `initFromEeprom()` on an initialised engine active and edit buffer hold what
the scan loaded. -/
theorem initFromEeprom_bufs (w : Nat) (bus : ReadBus) (dev : Device) (e : Engine)
    (hinit : Initialised e) :
    (initFromEeprom w bus dev e).2.activeRam = (pickActiveSlotOnInit w bus dev e).activeRam ∧
    (initFromEeprom w bus dev e).2.editRam = (pickActiveSlotOnInit w bus dev e).activeRam ∧
    (pickActiveSlotOnInit w bus dev e).activeRam.length = e.userSize := by
  obtain ⟨ha, he, _, _, hel, _⟩ := hinit
  have hlen := pickActiveSlotOnInit_activeRam_length w bus dev e
  have hoth := pickActiveSlotOnInit_others w bus dev e
  have hu := (pickActiveSlotOnInit_layout w bus dev e).1
  have hb := syncFromActive_bufs (pickActiveSlotOnInit w bus dev e)
    (by rw [hlen, hu]) (by rw [hoth.1, hu, hel])
  unfold initFromEeprom
  simp only [hoth.2.2.1, hoth.2.2.2.1, ha, he, Bool.and_self, if_true]
  exact ⟨hb.1, hb.2, hlen⟩

/-! ## `begin()` and `initFromEeprom()`: claims C11-C13 -/

/-- C11: for every object, device and bus, `begin()` returns `true` exactly when the
layout is accepted and the three buffer allocations succeed, whatever the slot scan
finds (so also when no slot is valid); and `initFromEeprom()` returns `true` for every
device content. -/
theorem c11_blank_device_no_error (w : Nat) (alloc : AllocOutcome) (bus : ReadBus)
    (dev : Device) (e : Engine) :
    ((begin w alloc bus dev e).1 = true ↔
      (layoutAccepted w e.userSize = true ∧ alloc.active = true ∧ alloc.edit = true ∧
        alloc.write = true)) ∧
    (initFromEeprom w bus dev e).1 = true := by
  refine ⟨?_, initFromEeprom_fst w bus dev e⟩
  rw [begin_fst]
  simp only [Bool.and_eq_true, and_assoc]

set_option maxRecDepth 1000000 in
/-- C11, witness: on a blank device, where no slot is valid, `begin()` for one-byte
records returns `true` with active counter 0, and `initFromEeprom()` returns `true`. -/
theorem c11_blank_device_no_error_witness :
    layoutAccepted 16 (construct 1).userSize = true ∧
    selectActiveSlot 16 reliableBus blankDevice (beforeScan 16 (construct 1)) = none ∧
    (begin 16 allocAll reliableBus blankDevice (construct 1)).1 = true ∧
    (initFromEeprom 16 reliableBus blankDevice blankEngine).1 = true :=
  ⟨by decide, by decide,
    (c11_blank_device_no_error 16 allocAll reliableBus blankDevice (construct 1)).1.mpr
      ⟨by decide, rfl, rfl, rfl⟩,
    (c11_blank_device_no_error 16 allocAll reliableBus blankDevice blankEngine).2⟩

/-- C12: after every successful `begin()`, and after every `initFromEeprom()` on an
initialised engine, the active buffer is what the slot scan loaded and the edit buffer
is a copy of it, byte for byte over all `userSize` bytes; this is so whatever the edit
buffer held before the call: replacing its contents by any `edits` beforehand changes
neither buffer afterwards, so unsaved edits are discarded. -/
theorem c12_sync_from_active :
    (∀ (w : Nat) (alloc : AllocOutcome) (bus : ReadBus) (dev : Device) (e : Engine),
      (begin w alloc bus dev e).1 = true →
        activeBuffer (begin w alloc bus dev e).2 =
          (pickActiveSlotOnInit w bus dev (beforeScan w e)).activeRam ∧
        editBuffer (begin w alloc bus dev e).2 =
          (pickActiveSlotOnInit w bus dev (beforeScan w e)).activeRam ∧
        editBuffer (begin w alloc bus dev e).2 = activeBuffer (begin w alloc bus dev e).2 ∧
        (editBuffer (begin w alloc bus dev e).2).length = e.userSize ∧
        ∀ edits : List Byte,
          editBuffer (begin w alloc bus dev (setEdit e edits)).2 =
            (pickActiveSlotOnInit w bus dev (beforeScan w e)).activeRam ∧
          activeBuffer (begin w alloc bus dev (setEdit e edits)).2 =
            (pickActiveSlotOnInit w bus dev (beforeScan w e)).activeRam) ∧
    (∀ (w : Nat) (bus : ReadBus) (dev : Device) (e : Engine), Initialised e →
        activeBuffer (initFromEeprom w bus dev e).2 = (pickActiveSlotOnInit w bus dev e).activeRam ∧
        editBuffer (initFromEeprom w bus dev e).2 = (pickActiveSlotOnInit w bus dev e).activeRam ∧
        editBuffer (initFromEeprom w bus dev e).2 = activeBuffer (initFromEeprom w bus dev e).2 ∧
        (editBuffer (initFromEeprom w bus dev e).2).length = e.userSize ∧
        ∀ edits : List Byte, edits.length = e.userSize →
          editBuffer (initFromEeprom w bus dev (setEdit e edits)).2 =
            (pickActiveSlotOnInit w bus dev e).activeRam ∧
          activeBuffer (initFromEeprom w bus dev (setEdit e edits)).2 =
            (pickActiveSlotOnInit w bus dev e).activeRam) := by
  constructor
  · intro w alloc bus dev e h
    obtain ⟨h1, h2, h3⟩ := begin_bufs w alloc bus dev e h
    unfold editBuffer activeBuffer
    refine ⟨h1, h2, by rw [h1, h2], by rw [h2, h3], ?_⟩
    intro edits
    have h' : (begin w alloc bus dev (setEdit e edits)).1 = true := by
      rw [begin_fst] at h ⊢
      exact h
    obtain ⟨g1, g2, _⟩ := begin_bufs w alloc bus dev (setEdit e edits) h'
    have hb : beforeScan w (setEdit e edits) = beforeScan w e := rfl
    rw [hb] at g1 g2
    exact ⟨g2, g1⟩
  · intro w bus dev e hinit
    obtain ⟨h1, h2, h3⟩ := initFromEeprom_bufs w bus dev e hinit
    unfold editBuffer activeBuffer
    refine ⟨h1, h2, by rw [h1, h2], by rw [h2, h3], ?_⟩
    intro edits hlen
    have hinit2 : Initialised (setEdit e edits) := by
      obtain ⟨a1, a2, a3, a4, _, a6⟩ := hinit
      exact ⟨a1, a2, a3, a4, hlen, a6⟩
    obtain ⟨g1, g2, _⟩ := initFromEeprom_bufs w bus dev (setEdit e edits) hinit2
    have hc := pickActiveSlotOnInit_activeRam_congr w bus dev (setEdit e edits) e rfl rfl rfl
    rw [hc] at g1 g2
    exact ⟨g2, g1⟩

set_option maxRecDepth 1000000 in
/-- C12, witness: `begin()` on a device holding one committed record `[0x07]`, and
`initFromEeprom()` on that device for an engine whose edit buffer holds the unsaved
edit `[0x55]` and whose active buffer is still erased: in both cases the scan loads
`[0x07]`, and active and edit buffer are `[0x07]` afterwards. -/
theorem c12_sync_from_active_witness :
    (startOn reliableBus oneRecordDevice).1 = true ∧
    Initialised (setEdit blankEngine [0x55]) ∧
    editBuffer (setEdit blankEngine [0x55]) = [0x55] ∧
    activeBuffer (setEdit blankEngine [0x55]) = [0xFF] ∧
    (pickActiveSlotOnInit 16 reliableBus oneRecordDevice (setEdit blankEngine [0x55])).activeRam =
      [7] ∧
    editBuffer (startOn reliableBus oneRecordDevice).2 =
      activeBuffer (startOn reliableBus oneRecordDevice).2 ∧
    editBuffer (initFromEeprom 16 reliableBus oneRecordDevice (setEdit blankEngine [0x55])).2 =
      (pickActiveSlotOnInit 16 reliableBus oneRecordDevice (setEdit blankEngine [0x55])).activeRam ∧
    activeBuffer (initFromEeprom 16 reliableBus oneRecordDevice (setEdit blankEngine [0x55])).2 =
      (pickActiveSlotOnInit 16 reliableBus oneRecordDevice (setEdit blankEngine [0x55])).activeRam :=
  have hinit : Initialised (setEdit blankEngine [0x55]) := by
    unfold Initialised
    decide
  ⟨by decide, hinit, by decide, by decide, by decide,
    (c12_sync_from_active.1 16 allocAll reliableBus oneRecordDevice (construct 1)
      (by decide)).2.2.1,
    (c12_sync_from_active.2 16 reliableBus oneRecordDevice (setEdit blankEngine [0x55]) hinit).2.1,
    (c12_sync_from_active.2 16 reliableBus oneRecordDevice (setEdit blankEngine [0x55]) hinit).1⟩

/-- C13: when the layout is accepted and the three allocations succeed, `begin()` invokes
the slot scan on the engine `beforeScan`, in which the active, edit and in-flight
buffers are allocated and each consist of `userSize` bytes `0xFF`, the active counter
is 0 and no write is pending. -/
theorem c13_erase_pattern_init (w : Nat) (alloc : AllocOutcome) (bus : ReadBus) (dev : Device)
    (e : Engine) (hacc : layoutAccepted w e.userSize = true)
    (halloc : alloc.active = true ∧ alloc.edit = true ∧ alloc.write = true) :
    begin w alloc bus dev e =
      (true, syncFromActive (pickActiveSlotOnInit w bus dev (beforeScan w e))) ∧
    activeBuffer (beforeScan w e) = List.replicate e.userSize ERASED ∧
    editBuffer (beforeScan w e) = List.replicate e.userSize ERASED ∧
    (beforeScan w e).writeRam = List.replicate e.userSize ERASED ∧
    (activeBuffer (beforeScan w e)).length = e.userSize ∧
    (editBuffer (beforeScan w e)).length = e.userSize ∧
    (beforeScan w e).writeRam.length = e.userSize ∧
    Initialised (beforeScan w e) ∧
    getActiveCounter (beforeScan w e) = 0 ∧
    isWritePending (beforeScan w e) = false := by
  have h1 : (begin w alloc bus dev e).1 = true := by
    rw [begin_fst, hacc, halloc.1, halloc.2.1, halloc.2.2]
    rfl
  have h2 := (begin_true w alloc bus dev e h1).2
  have hlen : (List.replicate e.userSize ERASED).length = e.userSize := by simp
  refine ⟨?_, rfl, rfl, rfl, hlen, hlen, hlen, ⟨rfl, rfl, rfl, hlen, hlen, hlen⟩, rfl, rfl⟩
  rw [← h1, ← h2]

/-- C13, witness: `begin()` for 58-byte records with a 16-bit `size_t`. -/
theorem c13_erase_pattern_init_witness :
    layoutAccepted 16 (construct 58).userSize = true ∧
    activeBuffer (beforeScan 16 (construct 58)) = List.replicate 58 ERASED ∧
    getActiveCounter (beforeScan 16 (construct 58)) = 0 ∧
    isWritePending (beforeScan 16 (construct 58)) = false :=
  have h := c13_erase_pattern_init 16 allocAll reliableBus blankDevice (construct 58)
    (by decide) ⟨rfl, rfl, rfl⟩
  ⟨by decide, h.2.1, h.2.2.2.2.2.2.2.2.1, h.2.2.2.2.2.2.2.2.2⟩

/-! ## Slot placement and the guarded division: claims C14 and C16 -/

/-- For an accepted layout every slot lies in the device; this needs no bound on the
record size, so it also covers the sizes for which line 28 wraps. -/
theorem accepted_slot_bounds (w userSize : Nat) (hacc : layoutAccepted w userSize = true)
    (i : Nat) (hi : i < (beginLayout w userSize Layout.init).1.numSlots) :
    i * (beginLayout w userSize Layout.init).1.slotSize +
      (beginLayout w userSize Layout.init).1.slotSize ≤ 4096 := by
  obtain ⟨_, _, _, s4, _⟩ := accepted_shape w userSize hacc
  generalize (beginLayout w userSize Layout.init).1.slotSize = S at *
  generalize (beginLayout w userSize Layout.init).1.numSlots = n at *
  have h1 : (i + 1) * S ≤ n * S := Nat.mul_le_mul_right _ hi
  have h2 : n * S ≤ 4096 := by rw [s4]; exact Nat.div_mul_le_self _ _
  rw [Nat.add_mul, Nat.one_mul] at h1
  omega

/-- C14: let `size_t` be wide enough to hold `EEPROM_TOTAL` (`13 ≤ w`) and let the engine
carry the layout fields of an accepted layout. Then for every slot index
`i < numSlots`, `slotBaseAddress(i) + slotSize ≤ 4096`; for indices `i < j < numSlots`
slot `i` ends where slot `j` begins or before, so no address lies in both byte ranges;
and `numSlots ≥ 2`. -/
theorem c14_slots_inside_disjoint (w userSize : Nat) (e : Engine) (hw : 13 ≤ w)
    (hacc : layoutAccepted w userSize = true)
    (hl : ({ slotPages := e.slotPages, slotSize := e.slotSize, numSlots := e.numSlots } : Layout) =
      (beginLayout w userSize Layout.init).1) :
    (∀ i, i < e.numSlots → slotBaseAddress w e i + e.slotSize ≤ EEPROM_TOTAL) ∧
    (∀ i j, i < j → j < e.numSlots →
      slotBaseAddress w e i + e.slotSize ≤ slotBaseAddress w e j ∧
      ∀ a, ¬ ((slotBaseAddress w e i ≤ a ∧ a < slotBaseAddress w e i + e.slotSize) ∧
        (slotBaseAddress w e j ≤ a ∧ a < slotBaseAddress w e j + e.slotSize))) ∧
    2 ≤ e.numSlots := by
  have hS : e.slotSize = (beginLayout w userSize Layout.init).1.slotSize := by rw [← hl]
  have hN : e.numSlots = (beginLayout w userSize Layout.init).1.numSlots := by rw [← hl]
  have hshape := accepted_shape w userSize hacc
  have hpow := two_pow_ge hw
  have hbound : ∀ i, i < e.numSlots → i * e.slotSize + e.slotSize ≤ 4096 := by
    intro i hi
    rw [hS]
    exact accepted_slot_bounds w userSize hacc i (by rw [← hN]; exact hi)
  have hbase : ∀ i, i < e.numSlots → slotBaseAddress w e i = i * e.slotSize := by
    intro i hi
    have := hbound i hi
    unfold slotBaseAddress szMul
    exact Nat.mod_eq_of_lt (by omega)
  refine ⟨?_, ?_, ?_⟩
  · intro i hi
    rw [hbase i hi]
    exact hbound i hi
  · intro i j hij hj
    have hi : i < e.numSlots := by omega
    rw [hbase i hi, hbase j hj]
    have hle : (i + 1) * e.slotSize ≤ j * e.slotSize := Nat.mul_le_mul_right _ hij
    rw [Nat.add_mul, Nat.one_mul] at hle
    refine ⟨hle, ?_⟩
    intro a ha
    omega
  · rw [hN]
    exact hshape.2.2.2.2

/-- C14, witness: 58-byte records with a 16-bit `size_t`: 64 slots of 64 bytes. -/
theorem c14_slots_inside_disjoint_witness :
    layoutAccepted 16 58 = true ∧
    (beforeScan 16 (construct 58)).numSlots = 64 ∧
    (∀ i, i < (beforeScan 16 (construct 58)).numSlots →
      slotBaseAddress 16 (beforeScan 16 (construct 58)) i +
        (beforeScan 16 (construct 58)).slotSize ≤ EEPROM_TOTAL) ∧
    2 ≤ (beforeScan 16 (construct 58)).numSlots :=
  have h := c14_slots_inside_disjoint 16 58 (beforeScan 16 (construct 58)) (by decide)
    (by decide) (by decide)
  ⟨by decide, by decide, h.1, h.2.2⟩

/-- C16: for every value of `userSize` and every width of `size_t`, the layout step of
`begin()` with its divisions checked never divides by zero: it returns, with the result
of `beginLayout`; line 32 is reached only with `_slotSize ≠ 0`. -/
theorem c16_division_guarded (w userSize : Nat) (l0 : Layout) :
    beginLayoutChecked w userSize l0 = some (beginLayout w userSize l0) ∧
    ((beginLayout w userSize l0).1.slotSize = 0 →
      (beginLayout w userSize l0) =
        ({ slotPages := computeSlotPages w userSize, slotSize := 0, numSlots := l0.numSlots },
          false)) := by
  constructor
  · have hdiv : szDiv (szSub w (szAdd w (szAdd w userSize FOOTER_SIZE) PAGE_SIZE) 1) PAGE_SIZE =
        some (computeSlotPages w userSize) := rfl
    unfold beginLayoutChecked beginLayout
    rw [hdiv]
    simp only
    generalize szMul w (computeSlotPages w userSize) PAGE_SIZE = S
    by_cases hbig : S = 0 ∨ S > EEPROM_TOTAL
    · rw [if_pos hbig, if_pos hbig]
    · rw [if_neg hbig, if_neg hbig]
      have hS : ¬ (S = 0) := fun h => hbig (Or.inl h)
      have hd : szDiv EEPROM_TOTAL S = some (EEPROM_TOTAL / S) := by
        unfold szDiv
        rw [if_neg hS]
      rw [hd]
      simp only
      by_cases h2 : EEPROM_TOTAL / S < 2
      · rw [if_pos h2, if_pos h2]
      · rw [if_neg h2, if_neg h2]
  · intro hz
    unfold beginLayout at hz ⊢
    simp only at hz ⊢
    split_ifs at hz ⊢ with h1 h2
    · simp only at hz
      rw [hz]
    · exact absurd (Or.inl hz) h1
    · exact absurd (Or.inl hz) h1

/-! ## Seed chaining and the read bounds check: claims C15 and C17 -/

/-- C15: for all byte sequences `a` and `b` and every seed,
`crc16_ccitt (a ++ b) seed = crc16_ccitt b (crc16_ccitt a seed)`, and the CRC of the
empty sequence is the seed itself (for every `uint16_t` seed; a wider argument is
reduced modulo `2^16` by the parameter type). -/
theorem c15_seed_chaining :
    (∀ (a b : List Byte) (seed : Nat),
      crc16_ccitt (a ++ b) seed = crc16_ccitt b (crc16_ccitt a seed)) ∧
    (∀ seed : Nat, seed < 65536 → crc16_ccitt [] seed = seed) ∧
    (∀ seed : Nat, crc16_ccitt [] seed = seed % 65536) := by
  have hnil : ∀ seed : Nat, crc16_ccitt [] seed = seed % 65536 := by
    intro seed
    rw [crc16_ccitt_eq_foldl]
    rfl
  refine ⟨?_, ?_, hnil⟩
  · intro a b seed
    have hlt := crc16_ccitt_lt a seed
    rw [crc16_ccitt_eq_foldl (a ++ b), crc16_ccitt_eq_foldl b, List.foldl_append,
      Nat.mod_eq_of_lt hlt, crc16_ccitt_eq_foldl a]
  · intro seed hs
    rw [hnil, Nat.mod_eq_of_lt hs]

set_option maxRecDepth 100000 in
/-- C15, witness: the check string split after its fourth byte, and the empty sequence
with the default seed. -/
theorem c15_seed_chaining_witness :
    crc16_ccitt ([0x31, 0x32, 0x33, 0x34] ++ [0x35, 0x36, 0x37, 0x38, 0x39]) CRC_SEED =
      crc16_ccitt [0x35, 0x36, 0x37, 0x38, 0x39] (crc16_ccitt [0x31, 0x32, 0x33, 0x34] CRC_SEED) ∧
    crc16_ccitt [0x35, 0x36, 0x37, 0x38, 0x39] (crc16_ccitt [0x31, 0x32, 0x33, 0x34] CRC_SEED) =
      0x29B1 ∧
    crc16_ccitt [] CRC_SEED = CRC_SEED :=
  ⟨c15_seed_chaining.1 [0x31, 0x32, 0x33, 0x34] [0x35, 0x36, 0x37, 0x38, 0x39] CRC_SEED,
    by decide, c15_seed_chaining.2.1 CRC_SEED (by decide)⟩

/-- When `addr + len` does not wrap, a range that is not contained in the device is
rejected by line 80 whatever the bus and the device: no transaction is issued and nothing
is delivered. -/
theorem eepromReadBytes_rejects_noWrap (w : Nat) (bus : ReadBus) (dev : Device)
    (addr len : Nat) (hnw : addr + len < 2 ^ w)
    (hout : ∃ x, addr ≤ x ∧ x < addr + len ∧ EEPROM_TOTAL ≤ x) :
    eepromReadBytes w bus dev addr len = none := by
  obtain ⟨x, h1, h2, h3⟩ := hout
  unfold eepromReadBytes szAdd
  rw [Nat.mod_eq_of_lt hnw, if_pos (by omega)]

/-- C17 (code at the failing inputs): with a 16-bit `size_t`, the read of 2 bytes at
address 65535 and the read of 65535 bytes at address 32 both pass the check of line 80,
because `addr + len` wraps to 1 and to 31; the bus transfer is issued and bytes are
delivered, although neither range is contained in the device. -/
theorem c17_read_bounds_check_fails :
    szAdd 16 65535 2 = 1 ∧ ¬ (65535 + 2 ≤ EEPROM_TOTAL) ∧
    eepromReadBytes 16 reliableBus blankDevice 65535 2 = some [ERASED, ERASED] ∧
    szAdd 16 32 65535 = 31 ∧ ¬ (32 + 65535 ≤ EEPROM_TOTAL) ∧
    (eepromReadBytes 16 reliableBus blankDevice 32 65535).isSome = true := by
  decide

end I2C24LC32
